import Mathlib

/-!
Verification of the signal/observer dispatch system (`network/signals.py`) and
the pathfinding engine (`game_system/pathfinding/algorithm.py`) of PyAuthServer.

Python dicts are embedded as association lists over `Nat` keys (insertion
order preserved, unique keys maintained by `dinsert`), Python sets as
duplicate-free lists, callbacks as abstract identifiers, and a dispatch run is
observed through the list of callback invocations (`Event`s) it performs.
Class-level attributes of a Signal class become fields of a `SigState` value,
and the superclass escalation chain of `invoke_parent` becomes an explicit
list of (class id, state) pairs, head first, ending at the root class.
-/

set_option maxHeartbeats 1000000

deriving instance DecidableEq for Except

namespace PyAuthServer

/-- Lookup in a Python-dict association list: value of the first matching key. -/
def dlookup (k : Nat) : List (Nat × α) → Option α
  | [] => none
  | (k', v) :: rest => if k' = k then some v else dlookup k rest

/-- `d[k] = v` on a Python dict: overwrite in place when the key exists,
append at the end otherwise (insertion order semantics). -/
def dinsert (k : Nat) (v : α) : List (Nat × α) → List (Nat × α)
  | [] => [(k, v)]
  | (k', v') :: rest => if k' = k then (k, v) :: rest else (k', v') :: dinsert k v rest

/-- `d.pop(k, None)` on a Python dict: drop the entry with key `k`, if any. -/
def dremove (k : Nat) : List (Nat × α) → List (Nat × α)
  | [] => []
  | (k', v') :: rest => if k' = k then rest else (k', v') :: dremove k rest

/-- `s.add(x)` on a Python set embedded as a duplicate-free list. -/
def sadd [DecidableEq α] (x : α) (l : List α) : List α :=
  if x ∈ l then l else l ++ [x]

/-- The data `subscribe` records for one identifier: the callback (an abstract
id) and the two signature flags `accepts_signal` / `accepts_target`. -/
structure SubData where
  cb : Nat
  supplySignal : Bool
  supplyTarget : Bool
deriving DecidableEq

/-- One `invoke` call's payload, as cached by `CachedSignal.invoke`:
`(args, target, kwargs)`. -/
structure Invocation where
  args : List Nat
  target : Option Nat
  kwargs : List (Nat × Nat)
deriving DecidableEq

/-- One callback call performed by `invoke_signal`: the callback id, the
positional args, the optional `signal=`/`target=` keyword arguments (present
exactly when the subscriber's signature accepts them) and the extra kwargs. -/
structure Event where
  cb : Nat
  args : List Nat
  signalArg : Option Nat
  targetArg : Option (Option Nat)
  kwargs : List (Nat × Nat)
deriving DecidableEq

/-- The class-level registry of one Signal class, as installed by
`Signal.register_subtype`: live dicts and the pending mutation queues. -/
structure SigState where
  subscribers : List (Nat × SubData)
  isolated_subscribers : List (Nat × SubData)
  to_subscribe_global : List (Nat × SubData)
  to_subscribe_context : List (Nat × SubData)
  to_unsubscribe_context : List Nat
  to_unsubscribe_global : List Nat
  children : List (Nat × List Nat)
  to_remove_child : List (Nat × Nat)
  to_add_child : List (Nat × List Nat)
deriving DecidableEq

/-- A freshly registered Signal class: every registry component empty. -/
def emptySig : SigState :=
  ⟨[], [], [], [], [], [], [], [], []⟩

namespace Signal

/-- `Signal.subscribe` for one `(signal_cls, is_context)` entry of the
callback's declared signals: stage the identifier in the context or global
pending-subscribe dict.  Live dicts are untouched. -/
def subscribe (s : SigState) (is_context : Bool) (identifier : Nat) (d : SubData) : SigState :=
  if is_context then
    { s with to_subscribe_context := dinsert identifier d s.to_subscribe_context }
  else
    { s with to_subscribe_global := dinsert identifier d s.to_subscribe_global }

/-- `Signal.set_parent`: `to_add_child[parent_identifier].add(identifier)` on
the `defaultdict(set)` of staged child additions. -/
def set_parent (s : SigState) (identifier parent_identifier : Nat) : SigState :=
  { s with to_add_child :=
      match dlookup parent_identifier s.to_add_child with
      | some cs => dinsert parent_identifier (sadd identifier cs) s.to_add_child
      | none => s.to_add_child ++ [(parent_identifier, [identifier])] }

/-- `Signal.remove_parent`: `to_remove_child.add((identifier, parent_identifier))`. -/
def remove_parent (s : SigState) (identifier parent_identifier : Nat) : SigState :=
  { s with to_remove_child := sadd (identifier, parent_identifier) s.to_remove_child }

/-- `Signal.unsubscribe` for one `(signal_cls, is_context)` entry: append the
identifier to the pending-unsubscribe list (note the source pairing: the
`is_context` entries go to `to_unsubscribe_global` and conversely), then stage
removal of every live forest edge touching the identifier. -/
def unsubscribe (s : SigState) (is_context : Bool) (identifier : Nat) : SigState :=
  let s1 :=
    if is_context then
      { s with to_unsubscribe_global := s.to_unsubscribe_global ++ [identifier] }
    else
      { s with to_unsubscribe_context := s.to_unsubscribe_context ++ [identifier] }
  let s2 :=
    match dlookup identifier s1.children with
    | some cs => cs.foldl (fun t child => remove_parent t child identifier) s1
    | none => s1
  s1.children.foldl
    (fun t pr => if identifier ∈ pr.2 then remove_parent t identifier pr.1 else t) s2

/-- The four registry-mutating operations a running callback may perform; each
constructor is one staged `(signal_cls, is_context)` entry of the source call. -/
inductive StageOp where
  | sub (is_context : Bool) (identifier : Nat) (d : SubData)
  | unsub (is_context : Bool) (identifier : Nat)
  | setParent (identifier parent_identifier : Nat)
  | removeParent (identifier parent_identifier : Nat)
deriving DecidableEq

/-- Apply one staged operation to one class's state. -/
def applyStage (op : StageOp) (s : SigState) : SigState :=
  match op with
  | .sub c i d => subscribe s c i d
  | .unsub c i => unsubscribe s c i
  | .setParent i p => set_parent s i p
  | .removeParent i p => remove_parent s i p

/-- The `while pending: identifier, data = popitem(); live[identifier] = data;
on_subscribed(...)` loop of `update_state`, already given the pending entries
in pop (= reverse insertion) order. -/
def subsApplyLoop (hook : Nat → SubData → List Event) :
    List (Nat × SubData) → List (Nat × SubData) → List (Nat × SubData) × List Event
  | [], live => (live, [])
  | (i, d) :: rest, live =>
    let res := subsApplyLoop hook rest (dinsert i d live)
    (res.1, hook i d ++ res.2)

/-- The child-removal step of `update_state`: `children[parent].remove(child)`
per staged pair, dropping a parent whose set empties.  A missing parent key or
a missing child raises `KeyError` in the source, embedded as `none`. -/
def removeChildren : List (Nat × List Nat) → List (Nat × Nat) → Option (List (Nat × List Nat))
  | ch, [] => some ch
  | ch, (child, parent) :: rest =>
    match dlookup parent ch with
    | none => none
    | some cs =>
      if child ∈ cs then
        let cs' := cs.erase child
        removeChildren (if cs' = [] then dremove parent ch else dinsert parent cs' ch) rest
      else none

/-- `Signal.update_state`, parametrised by the `on_subscribed` hook (a no-op
for plain `Signal`, the cache replay for `CachedSignal`).  Applies pending
global then context subscribes, pops `to_unsubscribe_context` keys from
`subscribers` and `to_unsubscribe_global` keys from `isolated_subscribers`
(the source's pairing), merges `to_add_child` into `children` by dict update,
then performs the staged child removals; all queues end empty. -/
def update_state_hook (hook : Bool → Nat → SubData → List Event) (s : SigState) :
    Option (SigState × List Event) :=
  let resg := subsApplyLoop (hook false) s.to_subscribe_global.reverse s.subscribers
  let resc := subsApplyLoop (hook true) s.to_subscribe_context.reverse s.isolated_subscribers
  let subs2 := s.to_unsubscribe_context.foldl (fun d k => dremove k d) resg.1
  let iso2 := s.to_unsubscribe_global.foldl (fun d k => dremove k d) resc.1
  let ch1 := s.to_add_child.foldl (fun ch pr => dinsert pr.1 pr.2 ch) s.children
  match removeChildren ch1 s.to_remove_child with
  | none => none
  | some ch2 =>
    some ({ subscribers := subs2, isolated_subscribers := iso2,
            to_subscribe_global := [], to_subscribe_context := [],
            to_unsubscribe_context := [], to_unsubscribe_global := [],
            children := ch2, to_remove_child := [], to_add_child := [] },
          resg.2 ++ resc.2)

/-- `Signal.update_state` proper: the `on_subscribed` hook of plain `Signal`
does nothing. -/
def update_state (s : SigState) : Option SigState :=
  (update_state_hook (fun _ _ _ => []) s).map Prod.fst

/-- `Signal.invoke_signal`: call one callback, passing `signal=`/`target=`
keywords exactly when the subscriber declared it accepts them. -/
def invoke_signal (cls : Nat) (args : List Nat) (target : Option Nat)
    (kwargs : List (Nat × Nat)) (d : SubData) : Event :=
  { cb := d.cb, args := args,
    signalArg := if d.supplySignal then some cls else none,
    targetArg := if d.supplyTarget then some target else none,
    kwargs := kwargs }

/-- `Signal.invoke_general`: flat dispatch over a subscriber dict's values in
insertion order. -/
def invoke_general (cls : Nat) (subscriber_dict : List (Nat × SubData)) (args : List Nat)
    (target : Option Nat) (kwargs : List (Nat × Nat)) : List Event :=
  subscriber_dict.map (fun kv => invoke_signal cls args target kwargs kv.2)

/-- `Signal.invoke_targets`: fire the addressee if it is a key of the
contextual dict, then recurse into `children[addressee]`.  `fuel` bounds the
recursion depth of the embedded tree walk. -/
def invoke_targets (cls : Nat) (target_dict : List (Nat × SubData))
    (children : List (Nat × List Nat)) (args : List Nat) (target : Option Nat)
    (kwargs : List (Nat × Nat)) : Nat → Nat → List Event
  | 0, _ => []
  | fuel + 1, addressee =>
    (match dlookup addressee target_dict with
     | some d => [invoke_signal cls args target kwargs d]
     | none => []) ++
    (match dlookup addressee children with
     | some cs =>
       cs.flatMap (fun c => invoke_targets cls target_dict children args target kwargs fuel c)
     | none => [])

/-- The body of `Signal.invoke` for one class of the escalation chain:
targeted dispatch over `isolated_subscribers` when a target is given, then
general dispatch over `subscribers`. -/
def class_invoke (fuel cls : Nat) (s : SigState) (args : List Nat) (target : Option Nat)
    (kwargs : List (Nat × Nat)) : List Event :=
  (match target with
   | some t => invoke_targets cls s.isolated_subscribers s.children args target kwargs fuel t
   | none => []) ++
  invoke_general cls s.subscribers args target kwargs

/-- `Signal.invoke` on the head class of the chain followed by the
`invoke_parent` escalation through each ancestor up to (and including) the
root, where `highest_signal` stops the walk. -/
def invoke (fuel : Nat) : List (Nat × SigState) → List Nat → Option Nat →
    List (Nat × Nat) → List Event
  | [], _, _, _ => []
  | (cls, s) :: ancestors, args, target, kwargs =>
    class_invoke fuel cls s args target kwargs ++ invoke fuel ancestors args target kwargs

end Signal

/-- A `CachedSignal` class: the plain registry plus the invocation cache. -/
structure CachedState where
  base : SigState
  cache : List Invocation
deriving DecidableEq

namespace CachedSignal

/-- `CachedSignal.invoke`: a fresh invocation (`subscriber_data = None`)
appends to the cache and dispatches over the live registry; a replay
invocation dispatches only over the supplied one-subscriber dict.  Both
escalate through `invoke_parent` to the ancestor chain. -/
def invoke (fuel cls : Nat) (cs : CachedState) (ancestors : List (Nat × SigState))
    (subscriber_data : Option (List (Nat × SubData))) (args : List Nat)
    (target : Option Nat) (kwargs : List (Nat × Nat)) : CachedState × List Event :=
  match subscriber_data with
  | none =>
    ({ cs with cache := cs.cache ++ [⟨args, target, kwargs⟩] },
     ((match target with
       | some t =>
         Signal.invoke_targets cls cs.base.isolated_subscribers cs.base.children
           args target kwargs fuel t
       | none => []) ++
      Signal.invoke_general cls cs.base.subscribers args target kwargs) ++
     Signal.invoke fuel ancestors args target kwargs)
  | some sd =>
    (cs, Signal.invoke_general cls sd args target kwargs ++
         Signal.invoke fuel ancestors args target kwargs)

/-- `CachedSignal.on_subscribed`: contextual additions get no replay; a new
global subscriber is replayed against the whole cache in original order, each
replay running `CachedSignal.invoke` with a one-entry `subscriber_data`. -/
def on_subscribed (fuel cls : Nat) (cs : CachedState) (ancestors : List (Nat × SigState))
    (is_contextual : Bool) (subscriber : Nat) (data : SubData) : List Event :=
  if is_contextual then []
  else
    cs.cache.flatMap (fun inv =>
      (invoke fuel cls cs ancestors (some [(subscriber, data)])
        inv.args inv.target inv.kwargs).2)

/-- `update_state` on a `CachedSignal` class: the generic flush with the cache
replay hook; the cache itself is untouched. -/
def update_state (fuel cls : Nat) (cs : CachedState) (ancestors : List (Nat × SigState)) :
    Option (CachedState × List Event) :=
  (Signal.update_state_hook (on_subscribed fuel cls cs ancestors) cs.base).map
    (fun p => (⟨p.1, cs.cache⟩, p.2))

end CachedSignal

/-! ### Re-entrant dispatch

To state that dispatch is insensitive to registry mutations requested by the
very callbacks it runs, `invoke` is embedded a second time with the state of
every Signal class threaded through each callback call.  `Classes` maps class
ids to their states; a callback is interpreted by an environment giving the
staged operations (and their target classes) it performs when called.  Every
read of `subscribers` / `isolated_subscribers` / `children` goes through the
threaded state, exactly as the source's attribute reads alias the live dicts. -/

/-- The states of all registered Signal classes, keyed by class id. -/
def Classes := List (Nat × SigState)

/-- The state of one class (a class the registry does not know is empty). -/
def getCls (cls : Nat) (m : Classes) : SigState :=
  (dlookup cls m).getD emptySig

/-- Interpretation of callbacks: the staged `(class, operation)` pairs a
callback performs when it runs. -/
def CbEnv := Nat → List (Nat × Signal.StageOp)

namespace Signal

/-- Apply one staged operation to the named class. -/
def applyStageAt (cls : Nat) (op : StageOp) (m : Classes) : Classes :=
  List.map (fun p => if p.1 = cls then (p.1, applyStage op p.2) else p) m

/-- Run one callback's staged operations against the registry. -/
def applyCbOps (env : CbEnv) (cb : Nat) (m : Classes) : Classes :=
  (env cb).foldl (fun m' pr => applyStageAt pr.1 pr.2 m') m

/-- `invoke_targets` with callback effects threaded: each lookup reads the
current registry state, and each fired callback's staged operations are
applied before dispatch continues. -/
def invoke_targets_eff (env : CbEnv) (cls : Nat) (args : List Nat) (target : Option Nat)
    (kwargs : List (Nat × Nat)) : Nat → Classes → Nat → Classes × List Event
  | 0, m, _ => (m, [])
  | fuel + 1, m, addressee =>
    let step : Classes × List Event :=
      match dlookup addressee (getCls cls m).isolated_subscribers with
      | some d => (applyCbOps env d.cb m, [invoke_signal cls args target kwargs d])
      | none => (m, [])
    match dlookup addressee (getCls cls step.1).children with
    | some cs =>
      let res := cs.foldl
        (fun (acc : Classes × List Event) c =>
          let r := invoke_targets_eff env cls args target kwargs fuel acc.1 c
          (r.1, acc.2 ++ r.2))
        (step.1, [])
      (res.1, step.2 ++ res.2)
    | none => step

/-- `invoke_general` with callback effects threaded over the subscriber list
read at loop entry. -/
def invoke_general_eff (env : CbEnv) (cls : Nat) (args : List Nat) (target : Option Nat)
    (kwargs : List (Nat × Nat)) : Classes → List (Nat × SubData) → Classes × List Event
  | m, [] => (m, [])
  | m, kv :: rest =>
    let res := invoke_general_eff env cls args target kwargs (applyCbOps env kv.2.cb m) rest
    (res.1, invoke_signal cls args target kwargs kv.2 :: res.2)

/-- One class's `invoke` body with effects: targeted dispatch first, then
general dispatch over the subscriber dict as it stands at that point. -/
def class_invoke_eff (env : CbEnv) (fuel cls : Nat) (m : Classes) (args : List Nat)
    (target : Option Nat) (kwargs : List (Nat × Nat)) : Classes × List Event :=
  let tgt : Classes × List Event :=
    match target with
    | some t => invoke_targets_eff env cls args target kwargs fuel m t
    | none => (m, [])
  let gen := invoke_general_eff env cls args target kwargs tgt.1 (getCls cls tgt.1).subscribers
  (gen.1, tgt.2 ++ gen.2)

/-- `invoke` with effects along the escalation chain of class ids. -/
def invoke_eff (env : CbEnv) (fuel : Nat) : Classes → List Nat → List Nat → Option Nat →
    List (Nat × Nat) → Classes × List Event
  | m, [], _, _, _ => (m, [])
  | m, cls :: rest, args, target, kwargs =>
    let hd := class_invoke_eff env fuel cls m args target kwargs
    let tl := invoke_eff env fuel hd.1 rest args target kwargs
    (tl.1, hd.2 ++ tl.2)

end Signal

/-- Agreement of two class states on the live registry (the three dicts read
by dispatch); the pending queues are unconstrained. -/
def liveEq (a b : SigState) : Prop :=
  a.subscribers = b.subscribers ∧ a.isolated_subscribers = b.isolated_subscribers ∧
    a.children = b.children

/-- Pointwise live agreement of two whole registries. -/
def LiveEqC (m m' : Classes) : Prop :=
  ∀ cls, liveEq (getCls cls m) (getCls cls m')

/-! ### A* search (`AStarAlgorithm.find_path`)

Nodes are ids; the graph supplies `neighbours`, the edge cost
`neighbour.get_g_score_from(current)` and the goal's heuristic
`goal.get_h_score_from(neighbour)`.  The pluggable `is_finished(current, goal,
path)` test is a separate function of the current node and the predecessor
map.  A run can end in the source's Python exceptions, embedded explicitly:
`pathNotFound` (open set exhausted), `keyError` (`open_set.remove` on a node
no longer in the open set, or `set.remove` / `children[parent]` misses during
`update_state` — here only the former), `indexError` (`heappop` on an empty
heap).  `none` means the embedding's fuel ran out, never a source behaviour. -/

/-- The exceptions `find_path` can surface. -/
inductive AErr where
  | pathNotFound
  | keyError
  | indexError
deriving DecidableEq

/-- The node/neighbour graph with its cost and heuristic collaborators. -/
structure AGraph where
  neighbours : Nat → List Nat
  get_g_score_from : Nat → Nat → Int
  get_h_score_from : Nat → Int

/-- The loop state of `find_path`: open and closed sets, the predecessor map,
the per-node `g_score` store (class default 0) and the priority queue. -/
structure AState where
  openSet : List Nat
  closedSet : List Nat
  path : List (Nat × Nat)
  g : Nat → Int
  heap : List (Int × Nat)

/-- `heapq.heappop` on the `(f_score, node)` entry list: remove and return a
minimal-f entry, the first such when several tie (the source compares the
node objects on an f tie, which `AStarNode` does not support; runs with
distinct f-scores are embedded exactly). -/
def heappop : List (Int × Nat) → Option ((Int × Nat) × List (Int × Nat))
  | [] => none
  | e :: rest =>
    match heappop rest with
    | none => some (e, [])
    | some (m, rest') => if e.1 ≤ m.1 then some (e, rest) else some (m, e :: rest')

namespace AStarAlgorithm

/-- `AStarAlgorithm.reconstruct_path`: walk the predecessor map back from the
finishing node, prepending, until a node with no predecessor.  `fuel` bounds
the walk (the source loops on a cyclic map). -/
def reconstruct_path (path : List (Nat × Nat)) : Nat → Option Nat → List Nat → Option (List Nat)
  | _, none, acc => some acc
  | 0, some _, _ => none
  | fuel + 1, some n, acc => reconstruct_path path fuel (dlookup n path) (n :: acc)

/-- The neighbour-relaxation loop of one `find_path` iteration: skip closed
neighbours; when the neighbour is new to the open set or strictly improved,
record the predecessor, update `g_score`, push onto the heap and, if new, add
to the open set. -/
def relax_neighbours (G : AGraph) (current : Nat) (st : AState) : AState :=
  (G.neighbours current).foldl
    (fun st nb =>
      if nb ∈ st.closedSet then st
      else
        let tentative := st.g current + G.get_g_score_from nb current
        if nb ∉ st.openSet ∨ tentative < st.g nb then
          { st with
            path := dinsert nb current st.path,
            g := fun x => if x = nb then tentative else st.g x,
            heap := st.heap ++ [(tentative + G.get_h_score_from nb, nb)],
            openSet := if nb ∈ st.openSet then st.openSet else st.openSet ++ [nb] }
        else st)
    st

/-- The `while open_set:` loop of `find_path`.  Each iteration pops the heap,
removes the popped node from the open set (`KeyError` when a stale duplicate
entry's node is already closed), closes it, tests `is_finished`, else relaxes
the neighbours. -/
def astar_loop (G : AGraph) (isFin : Nat → List (Nat × Nat) → Bool) :
    Nat → AState → Option (Except AErr (List Nat))
  | 0, _ => none
  | fuel + 1, st =>
    if st.openSet = [] then some (Except.error AErr.pathNotFound)
    else
      match heappop st.heap with
      | none => some (Except.error AErr.indexError)
      | some (e, heap') =>
        let current := e.2
        if current ∈ st.openSet then
          let st1 : AState :=
            { st with openSet := st.openSet.erase current,
                      closedSet := sadd current st.closedSet, heap := heap' }
          if isFin current st.path then
            match reconstruct_path st.path (fuel + 1) (some current) [] with
            | some p => some (Except.ok p)
            | none => none
          else astar_loop G isFin fuel (relax_neighbours G current st1)
        else some (Except.error AErr.keyError)

/-- `AStarAlgorithm.find_path(goal, start=None)`: `start` defaults to `goal`;
the run starts from `{start}` open, priority-0 heap entry and all-zero
`g_score` (the class default of fresh nodes). -/
def find_path (G : AGraph) (isFin : Nat → List (Nat × Nat) → Bool) (fuel : Nat)
    (goal : Nat) (start : Option Nat) : Option (Except AErr (List Nat)) :=
  let s := start.getD goal
  astar_loop G isFin fuel
    { openSet := [s], closedSet := [], path := [], g := fun _ => 0, heap := [(0, s)] }

end AStarAlgorithm

/-! ### Funnel refinement and the hierarchical pathfinder -/

/-- A portal between two adjacent corridor regions; the terminal `EndPortal`
collapses both sides to the destination. -/
structure EndPortal (P : Type) where
  left : P
  right : P
deriving DecidableEq

/-- Modelled from the spec: `look_ahead` (from `network.iterators`, not under
`src/`) yields the consecutive pairs of the corridor node list, from which the
portals are derived. -/
def look_ahead (l : List α) : List (α × α) :=
  l.zip l.tail

/-- `Funnel.update` over the portal sequence.  `area` stands for
`triangle_area_squared` (from `geometry.utilities`, not under `src/`),
modelled from the spec as an abstract signed-area predicate.  The iteration
protocol is the `BidirectionalIterator` of the source comment (increment the
index, then yield the entry at it; setting `index` rewinds), with the index
starting at `-1`.  The result is the list of apexes committed through the
`path.append` callback, in order; `fuel` bounds the rescanning loop. -/
def funnel_update (area : P → P → P → Int) [DecidableEq P] (portals : List (EndPortal P)) :
    Nat → P → P → P → Int → Int → Int → List P → List P
  | 0, _, _, _, _, _, _, acc => acc
  | fuel + 1, apex, left, right, idx, left_index, right_index, acc =>
    let idx1 := idx + 1
    match portals.get? idx1.toNat with
    | none => acc
    | some portal =>
      if 0 ≤ area apex left portal.left ∧ ¬(apex = left ∨ area apex right portal.left < 0) then
        funnel_update area portals fuel right right right right_index left_index right_index
          (acc ++ [right])
      else
        let narrowL : P × Int :=
          if 0 ≤ area apex left portal.left then (portal.left, idx1) else (left, left_index)
        if area apex right portal.right ≤ 0 then
          if apex = right ∨ 0 < area apex narrowL.1 portal.right then
            funnel_update area portals fuel apex narrowL.1 portal.right idx1 narrowL.2 idx1 acc
          else
            funnel_update area portals fuel narrowL.1 narrowL.1 narrowL.1 narrowL.2 narrowL.2
              right_index (acc ++ [narrowL.1])
        else funnel_update area portals fuel apex narrowL.1 right idx1 narrowL.2 right_index acc

namespace FunnelAlgorithm

/-- `FunnelAlgorithm.find_path(source, destination, nodes)`: start the path at
the source, funnel over the portals of consecutive corridor nodes plus the
terminal portal, then append the destination.  `get_portal_to` is the coarse
nodes' portal collaborator. -/
def find_path (area : P → P → P → Int) [DecidableEq P] (get_portal_to : N → N → EndPortal P)
    (fuel : Nat) (source destination : P) (nodes : List N) : List P :=
  let portals := (look_ahead nodes).map (fun pr => get_portal_to pr.1 pr.2) ++
    [⟨destination, destination⟩]
  (source :: funnel_update area portals fuel source source source (-1) (-1) (-1) []) ++
    [destination]

end FunnelAlgorithm

/-- Outcomes of `PathfinderAlgorithm.find_path`: the coarse corridor when
`low_resolution` is requested, the refined result otherwise. -/
inductive PFResult (N R : Type) where
  | coarse (corridor : List N)
  | refined (result : R)
deriving DecidableEq

/-- Failures of `PathfinderAlgorithm.find_path`: the misconfiguration check,
or an exception raised by the configured algorithm and propagated. -/
inductive PFError (E : Type) where
  | algorithmNotImplemented
  | raised (e : E)
deriving DecidableEq

/-- The hierarchical pathfinder's configuration: the two algorithm slots
(`none` embeds an object lacking a `find_path` attribute) and the spatial
lookup collaborator. -/
structure PathfinderAlgorithm (P N R E : Type) where
  low_resolution : Option (N → N → List N → Except E (List N))
  high_resolution : Option (P → P → List N → Except E R)
  spatial_lookup : P → N

namespace PathfinderAlgorithm

/-- `PathfinderAlgorithm.find_path(source, destination, nodes,
low_resolution=False)`: look up the terminal nodes, run the low-fidelity
algorithm (raising `AlgorithmNotImplemented` when the slot lacks
`find_path`), return its corridor unrefined when `low_resolution` is set,
otherwise check and run the high-fidelity algorithm on it. -/
def find_path (pf : PathfinderAlgorithm P N R E) (source destination : P) (nodes : List N)
    (low_resolution : Bool) : Except (PFError E) (PFResult N R) :=
  let source_node := pf.spatial_lookup source
  let destination_node := pf.spatial_lookup destination
  match pf.low_resolution with
  | none => Except.error PFError.algorithmNotImplemented
  | some path_finder =>
    match path_finder source_node destination_node nodes with
    | Except.error e => Except.error (PFError.raised e)
    | Except.ok low_resolution_path =>
      if low_resolution then Except.ok (PFResult.coarse low_resolution_path)
      else
        match pf.high_resolution with
        | none => Except.error PFError.algorithmNotImplemented
        | some path_finder2 =>
          match path_finder2 source destination low_resolution_path with
          | Except.error e => Except.error (PFError.raised e)
          | Except.ok r => Except.ok (PFResult.refined r)

end PathfinderAlgorithm

/-! ### Batch descriptors, observation helpers and concrete fixtures -/

namespace Signal

/-- Stage a whole batch of operations, in order, before one flush. -/
def applyBatch (s : SigState) (ops : List StageOp) : SigState :=
  ops.foldl (fun t op => applyStage op t) s

/-- Whether an operation is a subscribe or unsubscribe (no forest edits). -/
def is_sub_unsub : StageOp → Bool
  | .sub _ _ _ => true
  | .unsub _ _ => true
  | _ => false

/-- The data of the last subscribe staged in the batch for this identifier and
scope — the entry the pending dict holds after the batch. -/
def lastSub (is_context : Bool) (identifier : Nat) : List StageOp → Option SubData
  | [] => none
  | op :: rest =>
    match lastSub is_context identifier rest with
    | some d => some d
    | none =>
      match op with
      | .sub c i d => if c = is_context ∧ i = identifier then some d else none
      | _ => none

/-- Whether the batch stages an unsubscribe for this identifier and scope. -/
def hasUnsub (is_context : Bool) (identifier : Nat) (ops : List StageOp) : Bool :=
  ops.any (fun op =>
    match op with
    | .unsub c i => c = is_context && i = identifier
    | _ => false)

end Signal

/-- Value of the last entry with this key (a dict built by repeated
`dinsert` staging holds, for each key, the value staged last). -/
def dlookupLast (k : Nat) : List (Nat × α) → Option α
  | [] => none
  | (k', v) :: rest =>
    match dlookupLast k rest with
    | some v' => some v'
    | none => if k' = k then some v else none

/-- Well-formedness of an embedded dict: keys are unique, as Python
guarantees for every real dict. -/
def keysNodup (l : List (Nat × α)) : Prop :=
  (l.map Prod.fst).Nodup

/-- Agreement of two class states on the four subscribe/unsubscribe queues. -/
def queuesEq (a b : SigState) : Prop :=
  a.to_subscribe_global = b.to_subscribe_global ∧
    a.to_subscribe_context = b.to_subscribe_context ∧
    a.to_unsubscribe_context = b.to_unsubscribe_context ∧
    a.to_unsubscribe_global = b.to_unsubscribe_global

/-- All pending queues of a class are empty (the state right after a flush). -/
def pendingEmpty (s : SigState) : Prop :=
  s.to_subscribe_global = [] ∧ s.to_subscribe_context = [] ∧
    s.to_unsubscribe_context = [] ∧ s.to_unsubscribe_global = [] ∧
    s.to_add_child = [] ∧ s.to_remove_child = []

/-- The events of a dispatch trace delivered to one callback. -/
def cbFilter (c : Nat) (l : List Event) : List Event :=
  l.filter (fun e => e.cb == c)

/-- The loop invariant of `find_path`: the open set is duplicate-free and
every open node still has an entry in the priority queue. -/
def InvA (st : AState) : Prop :=
  st.openSet.Nodup ∧ ∀ n ∈ st.openSet, ∃ pr ∈ st.heap, pr.2 = n

/-! Concrete fixtures for the witnesses and counterexamples. -/

/-- Fixture: a contextual subscriber's data. -/
def dIso : SubData := ⟨101, false, false⟩

/-- Fixture: the new global subscriber of the cached-signal scenarios. -/
def dMain : SubData := ⟨100, true, true⟩

/-- Fixture: an ancestor class's global subscriber. -/
def dAnc : SubData := ⟨102, false, false⟩

/-- Fixture: a first cached invocation (targeted). -/
def invA : Invocation := ⟨[1], some 4, []⟩

/-- Fixture: a second cached invocation (untargeted, with a kwarg). -/
def invB : Invocation := ⟨[2], none, [(7, 8)]⟩

/-- Fixture: the ancestor chain of the cached-signal scenarios — one root
class with one live global subscriber. -/
def ancFix : List (Nat × SigState) :=
  [(8, { emptySig with subscribers := [(21, dAnc)] })]

/-- Fixture: a cached class with two cached invocations, one live global
subscriber and one staged global subscriber. -/
def csFix : CachedState :=
  { base := { emptySig with subscribers := [(22, dIso)],
                            to_subscribe_global := [(4, dMain)] },
    cache := [invA, invB] }

/-- Fixture: `csFix` with only a contextual subscriber staged. -/
def csFixCtx : CachedState :=
  { base := { emptySig with subscribers := [(22, dIso)],
                            to_subscribe_context := [(4, dMain)] },
    cache := [invA, invB] }

/-- Fixture: the registry after flushing `csFix` (subscriber 4 applied). -/
def s1Fix : CachedState :=
  ⟨⟨[(22, dIso), (4, dMain)], [], [], [], [], [], [], [], []⟩, [invA, invB]⟩

/-- Fixture: the registry after flushing `csFixCtx` (contextual 4 applied). -/
def s1CtxFix : CachedState :=
  ⟨⟨[(22, dIso)], [(4, dMain)], [], [], [], [], [], [], []⟩, [invA, invB]⟩

/-- Fixture: the replay trace of flushing `csFix` — for each cached
invocation, the event to the new subscriber followed by the escalated event to
the ancestor's subscriber. -/
def traceFix : List Event :=
  [⟨100, [1], some 3, some (some 4), []⟩, ⟨102, [1], none, none, []⟩,
   ⟨100, [2], some 3, some none, [(7, 8)]⟩, ⟨102, [2], none, none, [(7, 8)]⟩]

/-- Fixture for C2: one live global and one live contextual subscriber. -/
def s0c2 : SigState :=
  { emptySig with subscribers := [(9, ⟨90, false, false⟩)],
                  isolated_subscribers := [(9, ⟨91, false, false⟩)] }

/-- Fixture for C2: subscribe 7 globally, unsubscribe it again, subscribe 7
contextually — all staged before one flush. -/
def c2ops : List Signal.StageOp :=
  [.sub false 7 ⟨70, false, false⟩, .unsub false 7, .sub true 7 ⟨71, true, false⟩]

/-- Fixture for C2: the registry after flushing `c2ops` staged on `s0c2`. -/
def s1c2 : SigState :=
  ⟨[(9, ⟨90, false, false⟩)], [(9, ⟨91, false, false⟩), (7, ⟨71, true, false⟩)],
    [], [], [], [], [], [], []⟩

/-- Fixture for C4: forest 1 → 2 → 3 with a contextual subscriber at 3. -/
def s4fix : SigState :=
  { emptySig with children := [(1, [2]), (2, [3])],
                  isolated_subscribers := [(3, dIso)] }

/-- Fixture for C5: parent 1 already has applied child 2. -/
def s0c5 : SigState := { emptySig with children := [(1, [2])] }

/-- Fixture for C6/C7: start 0 with neighbours 1, 2, 3; the cheap detour
0 → 2 → 1 relaxes 1 after it entered the open set, leaving a stale heap entry
`(10, 1)` that is popped while 3 is still open. -/
def G67 : AGraph :=
  { neighbours := fun n => if n = 0 then [1, 2, 3] else if n = 2 then [1] else [],
    get_g_score_from := fun nb cur =>
      if nb = 1 ∧ cur = 0 then 10
      else if nb = 2 ∧ cur = 0 then 1
      else if nb = 3 ∧ cur = 0 then 100
      else if nb = 1 ∧ cur = 2 then 2
      else 0,
    get_h_score_from := fun _ => 0 }

/-- Fixture: a goal test that never finishes. -/
def isFinFalse : Nat → List (Nat × Nat) → Bool := fun _ _ => false

/-- Fixture for the C7 witness: a single isolated node. -/
def G7w : AGraph :=
  { neighbours := fun _ => [], get_g_score_from := fun _ _ => 0,
    get_h_score_from := fun _ => 0 }

/-- Fixture for C8: a working low-fidelity algorithm, no high-fidelity
`find_path`. -/
def pfC8 : PathfinderAlgorithm Nat Nat Nat Unit :=
  { low_resolution := some (fun _ _ _ => Except.ok [7]),
    high_resolution := none, spatial_lookup := fun p => p }

/-- Fixture for C8: neither slot has a `find_path`. -/
def pfC8b : PathfinderAlgorithm Nat Nat Nat Unit :=
  { low_resolution := none, high_resolution := none, spatial_lookup := fun p => p }

/-- Fixture for C9: a degenerate signed-area predicate (all collinear). -/
def area0 : Nat → Nat → Nat → Int := fun _ _ _ => 0

/-- Fixture for C9: portals named by their end nodes. -/
def portalTo0 : Nat → Nat → EndPortal Nat := fun a b => ⟨a, b⟩

/-- Fixture for C9: funnel-refining pathfinder over `Nat` positions. -/
def pfC9 : PathfinderAlgorithm Nat Nat (List Nat) Unit :=
  { low_resolution := some (fun a b _ => Except.ok [a, b]),
    high_resolution :=
      some (fun s d ns => Except.ok (FunnelAlgorithm.find_path area0 portalTo0 10 s d ns)),
    spatial_lookup := fun p => p }

/-! ## Helper lemmas -/

theorem dlookup_dinsert (k k' : Nat) (v : α) (l : List (Nat × α)) :
    dlookup k (dinsert k' v l) = if k' = k then some v else dlookup k l := by
  induction l with
  | nil => simp [dinsert, dlookup]
  | cons hd tl ih =>
    obtain ⟨a, b⟩ := hd
    by_cases hak : a = k'
    · subst hak
      by_cases hk : a = k
      · subst hk
        simp [dinsert, dlookup]
      · simp [dinsert, dlookup, hk]
    · by_cases hk : a = k
      · subst hk
        simp [dinsert, dlookup, hak, Ne.symm hak]
      · simp [dinsert, dlookup, hak, hk, ih]

theorem foldl_preserve (f : β → α → β) (p : β → Prop)
    (hstep : ∀ b a, p b → p (f b a)) :
    ∀ (l : List α) (b : β), p b → p (l.foldl f b) := by
  intro l
  induction l with
  | nil => intro b hb; exact hb
  | cons hd tl ih => intro b hb; exact ih (f b hd) (hstep b hd hb)

theorem liveEq_refl (s : SigState) : liveEq s s := ⟨rfl, rfl, rfl⟩

theorem liveEq_trans {a b c : SigState} (h1 : liveEq a b) (h2 : liveEq b c) : liveEq a c :=
  ⟨h1.1.trans h2.1, h1.2.1.trans h2.2.1, h1.2.2.trans h2.2.2⟩

theorem remove_parent_live (s : SigState) (i p : Nat) :
    liveEq (Signal.remove_parent s i p) s :=
  ⟨rfl, rfl, rfl⟩

theorem set_parent_live (s : SigState) (i p : Nat) :
    liveEq (Signal.set_parent s i p) s :=
  ⟨rfl, rfl, rfl⟩

theorem subscribe_live (s : SigState) (c : Bool) (i : Nat) (d : SubData) :
    liveEq (Signal.subscribe s c i d) s := by
  cases c <;> exact ⟨rfl, rfl, rfl⟩

theorem unsubscribe_live (s : SigState) (c : Bool) (i : Nat) :
    liveEq (Signal.unsubscribe s c i) s := by
  suffices h : ∀ s1 : SigState, liveEq s1 s →
      liveEq (s1.children.foldl
        (fun t pr => if i ∈ pr.2 then Signal.remove_parent t i pr.1 else t)
        (match dlookup i s1.children with
         | some cs => cs.foldl (fun t child => Signal.remove_parent t child i) s1
         | none => s1)) s by
    have hc : liveEq ((if c then
        { s with to_unsubscribe_global := s.to_unsubscribe_global ++ [i] }
      else
        { s with to_unsubscribe_context := s.to_unsubscribe_context ++ [i] }) : SigState) s := by
      cases c <;> exact ⟨rfl, rfl, rfl⟩
    exact h _ hc
  intro s1 h1
  have h2 : liveEq (match dlookup i s1.children with
      | some cs => cs.foldl (fun t child => Signal.remove_parent t child i) s1
      | none => s1) s := by
    cases dlookup i s1.children with
    | none => exact h1
    | some cs =>
      exact foldl_preserve _ (fun t => liveEq t s)
        (fun t child h => liveEq_trans (remove_parent_live t child i) h) cs s1 h1
  exact foldl_preserve _ (fun t => liveEq t s)
    (fun t pr h => by
      by_cases hm : i ∈ pr.2
      · simpa [hm] using liveEq_trans (remove_parent_live t i pr.1) h
      · simpa [hm] using h) s1.children _ h2

theorem stage_live (op : Signal.StageOp) (s : SigState) :
    liveEq (Signal.applyStage op s) s := by
  cases op with
  | sub c i d => exact subscribe_live s c i d
  | unsub c i => exact unsubscribe_live s c i
  | setParent i p => exact set_parent_live s i p
  | removeParent i p => exact remove_parent_live s i p

theorem update_state_children (s s' : SigState) (h : Signal.update_state s = some s') :
    Signal.removeChildren (s.to_add_child.foldl (fun ch pr => dinsert pr.1 pr.2 ch) s.children)
      s.to_remove_child = some s'.children := by
  unfold Signal.update_state Signal.update_state_hook at h
  cases hrc : Signal.removeChildren
      (s.to_add_child.foldl (fun ch pr => dinsert pr.1 pr.2 ch) s.children) s.to_remove_child with
  | none => simp only [hrc] at h; simp at h
  | some ch2 =>
    simp only [hrc, Option.map_some', Option.some.injEq] at h
    rw [← h]

/-! ## C5 — staged child additions versus the live forest -/

/-- C5 counterexample: parent 1 has applied child 2; staging child 3 with
`set_parent` and flushing yields child set `[3]` — the previously applied
child 2 is not in it, refuting the claim that `update_state` merges staged
additions into the existing forest. -/
theorem c5_children_merge_counterexample :
    (Signal.update_state (Signal.set_parent s0c5 3 1)).map (fun s => dlookup 1 s.children)
      = some (some [3])
    ∧ ¬ (2 ∈ ([3] : List Nat)) := by
  constructor
  · decide
  · decide

/-- C5 (amended): `update_state` applies staged child additions with a dict
update — for a parent with a staged entry, the resulting live child set is
exactly the staged set, discarding any previously applied children of that
parent. -/
theorem c5_update_state_replaces_staged_parent (s0 : SigState) (p c : Nat) (s1 : SigState)
    (hadd : s0.to_add_child = []) (hrem : s0.to_remove_child = [])
    (hupd : Signal.update_state (Signal.set_parent s0 c p) = some s1) :
    dlookup p s1.children = some [c] := by
  have h2 := update_state_children _ _ hupd
  have hta : (Signal.set_parent s0 c p).to_add_child = [(p, [c])] := by
    simp [Signal.set_parent, hadd, dlookup]
  have htr : (Signal.set_parent s0 c p).to_remove_child = s0.to_remove_child := rfl
  have hch : (Signal.set_parent s0 c p).children = s0.children := rfl
  rw [hta, htr, hrem, hch] at h2
  simp only [List.foldl_cons, List.foldl_nil, Signal.removeChildren] at h2
  have h3 := Option.some.inj h2
  rw [← h3, dlookup_dinsert]
  simp

theorem c5_update_state_replaces_staged_parent_witness :
    s0c5.to_add_child = [] ∧ s0c5.to_remove_child = []
    ∧ dlookup 1 ((⟨[], [], [], [], [], [], [(1, [3])], [], []⟩ : SigState)).children
        = some [3] :=
  ⟨rfl, rfl, c5_update_state_replaces_staged_parent s0c5 1 3 _ rfl rfl (by decide)⟩

/-! ## C8 — the misconfiguration check of the hierarchical pathfinder -/

/-- C8 counterexample: with a working low-fidelity algorithm and a
high-fidelity slot lacking `find_path`, `low_resolution=True` returns the
coarse corridor and raises nothing, refuting "for every value of the
low_resolution flag". -/
theorem c8_missing_high_not_detected :
    PathfinderAlgorithm.find_path pfC8 0 1 [] true = Except.ok (PFResult.coarse [7])
    ∧ PathfinderAlgorithm.find_path pfC8 0 1 [] true
        ≠ Except.error PFError.algorithmNotImplemented := by
  constructor
  · rfl
  · intro h
    exact Except.noConfusion h

/-- C8 (amended): `find_path` fails with `AlgorithmNotImplemented` whenever
the low-fidelity algorithm lacks `find_path` (for either flag value), and,
when `low_resolution` is false and the low-fidelity pass succeeds, whenever
the high-fidelity algorithm lacks it; with `low_resolution=True` the
high-fidelity slot is never checked. -/
theorem c8_missing_find_path_check :
    (∀ (P N R E : Type) (pf : PathfinderAlgorithm P N R E) (s d : P) (nodes : List N) (b : Bool),
       pf.low_resolution = none →
       pf.find_path s d nodes b = Except.error PFError.algorithmNotImplemented)
    ∧ (∀ (P N R E : Type) (pf : PathfinderAlgorithm P N R E) (s d : P) (nodes : List N)
        (f : N → N → List N → Except E (List N)) (corridor : List N),
       pf.low_resolution = some f →
       f (pf.spatial_lookup s) (pf.spatial_lookup d) nodes = Except.ok corridor →
       pf.high_resolution = none →
       pf.find_path s d nodes false = Except.error PFError.algorithmNotImplemented) := by
  constructor
  · intro P N R E pf s d nodes b hlow
    simp [PathfinderAlgorithm.find_path, hlow]
  · intro P N R E pf s d nodes f corridor hlow hok hhigh
    simp [PathfinderAlgorithm.find_path, hlow, hok, hhigh]

theorem c8_missing_find_path_check_witness :
    pfC8b.low_resolution = none
    ∧ PathfinderAlgorithm.find_path pfC8b 0 1 [] true
        = Except.error PFError.algorithmNotImplemented
    ∧ PathfinderAlgorithm.find_path pfC8 2 3 [] false
        = Except.error PFError.algorithmNotImplemented :=
  ⟨rfl, c8_missing_find_path_check.1 Nat Nat Nat Unit pfC8b 0 1 [] true rfl,
   c8_missing_find_path_check.2 Nat Nat Nat Unit pfC8 2 3 []
     (fun _ _ _ => Except.ok [7]) [7] rfl rfl rfl⟩

/-! ## C6 / C7 — A* error behaviour -/

theorem heappop_eq_none {l : List (Int × Nat)} (h : heappop l = none) : l = [] := by
  cases l with
  | nil => rfl
  | cons e rest =>
    exfalso
    simp only [heappop] at h
    cases hr : heappop rest with
    | none => rw [hr] at h; exact Option.noConfusion h
    | some p =>
      obtain ⟨m, rest'⟩ := p
      rw [hr] at h
      dsimp only at h
      split at h <;> exact Option.noConfusion h

theorem heappop_mem {l l' : List (Int × Nat)} {e : Int × Nat}
    (h : heappop l = some (e, l')) : ∀ x ∈ l, x = e ∨ x ∈ l' := by
  induction l generalizing e l' with
  | nil => exact absurd h (by simp [heappop])
  | cons a rest ih =>
    simp only [heappop] at h
    cases hr : heappop rest with
    | none =>
      rw [hr] at h
      dsimp only at h
      have hrest := heappop_eq_none hr
      injection h with h2
      injection h2 with h3 h4
      subst h3
      subst hrest
      intro x hx
      left
      exact List.mem_singleton.mp hx
    | some p =>
      obtain ⟨m, rest'⟩ := p
      rw [hr] at h
      dsimp only at h
      split at h
      · injection h with h2
        injection h2 with h3 h4
        subst h3
        subst h4
        intro x hx
        rcases List.mem_cons.mp hx with hxa | hxr
        · left; exact hxa
        · right; exact hxr
      · injection h with h2
        injection h2 with h3 h4
        subst h3
        subst h4
        intro x hx
        rcases List.mem_cons.mp hx with hxa | hxr
        · right; rw [hxa]; exact List.mem_cons_self a rest'
        · rcases ih hr x hxr with hxm | hxr'
          · left; exact hxm
          · right; exact List.mem_cons_of_mem a hxr'

theorem relax_inv (G : AGraph) (current : Nat) (st : AState) (h : InvA st) :
    InvA (AStarAlgorithm.relax_neighbours G current st) := by
  unfold AStarAlgorithm.relax_neighbours
  apply foldl_preserve _ InvA _ _ _ h
  intro b nb hb
  dsimp only
  split
  · exact hb
  · split
    · obtain ⟨hnd, hmem⟩ := hb
      constructor
      · dsimp only
        split
        · exact hnd
        · next hnotin =>
          refine List.nodup_append.mpr ⟨hnd, List.nodup_singleton nb, ?_⟩
          intro a ha ha'
          rw [List.mem_singleton.mp ha'] at ha
          exact hnotin ha
      · intro n hn
        dsimp only at hn ⊢
        by_cases hin : nb ∈ b.openSet
        · rw [if_pos hin] at hn
          obtain ⟨pr, hpr, hpr2⟩ := hmem n hn
          exact ⟨pr, List.mem_append_left _ hpr, hpr2⟩
        · rw [if_neg hin] at hn
          rcases List.mem_append.mp hn with hold | hnew
          · obtain ⟨pr, hpr, hpr2⟩ := hmem n hold
            exact ⟨pr, List.mem_append_left _ hpr, hpr2⟩
          · refine ⟨(b.g current + G.get_g_score_from nb current + G.get_h_score_from nb, nb),
              List.mem_append_right _ (List.mem_singleton_self _), ?_⟩
            rw [List.mem_singleton.mp hnew]
    · exact hb

theorem AStarAlgorithm.astar_loop_no_finish (G : AGraph) (isFin : Nat → List (Nat × Nat) → Bool)
    (hfin : ∀ n p, isFin n p = false) :
    ∀ (fuel : Nat) (st : AState) (r : Except AErr (List Nat)),
      InvA st → AStarAlgorithm.astar_loop G isFin fuel st = some r →
      r = Except.error AErr.pathNotFound ∨ r = Except.error AErr.keyError := by
  intro fuel
  induction fuel with
  | zero => intro st r hinv h; exact absurd h (by simp [AStarAlgorithm.astar_loop])
  | succ f ih =>
    intro st r hinv h
    simp only [AStarAlgorithm.astar_loop] at h
    by_cases hop : st.openSet = []
    · rw [if_pos hop] at h
      left
      exact (Option.some.inj h).symm
    · rw [if_neg hop] at h
      cases hpop : heappop st.heap with
      | none =>
        exfalso
        have hheap := heappop_eq_none hpop
        obtain ⟨n, hn⟩ := List.exists_mem_of_ne_nil _ hop
        obtain ⟨pr, hpr, _⟩ := hinv.2 n hn
        rw [hheap] at hpr
        exact absurd hpr (List.not_mem_nil pr)
      | some p =>
        obtain ⟨e, heap'⟩ := p
        rw [hpop] at h
        dsimp only at h
        by_cases hcur : e.2 ∈ st.openSet
        · rw [if_pos hcur] at h
          rw [if_neg (by simp [hfin])] at h
          refine ih _ r (relax_inv _ _ _ ?_) h
          constructor
          · exact hinv.1.erase e.2
          · intro n hn
            obtain ⟨hne, hmem⟩ := (List.Nodup.mem_erase_iff hinv.1).mp hn
            obtain ⟨pr, hpr, hpr2⟩ := hinv.2 n hmem
            rcases heappop_mem hpop pr hpr with he | h'
            · exact absurd (he ▸ hpr2).symm hne
            · exact ⟨pr, h', hpr2⟩
        · rw [if_neg hcur] at h
          right
          exact (Option.some.inj h).symm

/-- C6: `find_path` evaluated at the failing graph.  From start 0, the detour
0 → 2 → 1 relaxes node 1 while it is in the open set, re-pushing it and
leaving the stale heap entry `(10, 1)`; that entry is popped while node 3 is
still open, and `open_set.remove` raises `KeyError` — refuting the claim that
stale pops are handled without error and only a path or `PathNotFound` can
result. -/
theorem c6_stale_pop_raises_keyerror :
    AStarAlgorithm.find_path G67 isFinFalse 10 0 none = some (Except.error AErr.keyError) := by
  decide

/-- C7 counterexample: on the stale-duplicate graph with a goal test that is
false everywhere, `find_path` raises `KeyError`, not `PathNotFound`. -/
theorem c7_keyerror_counterexample :
    AStarAlgorithm.find_path G67 isFinFalse 10 0 none = some (Except.error AErr.keyError)
    ∧ AStarAlgorithm.find_path G67 isFinFalse 10 0 none
        ≠ some (Except.error AErr.pathNotFound) := by
  constructor
  · decide
  · decide

/-- C7 (amended): when the pluggable goal test returns false for every node
processed, a terminating `find_path` run raises `PathNotFound` once the open
set is exhausted, or `KeyError` on a stale duplicate pop while the open set is
nonempty (never a path, never `IndexError`); and an omitted `start` defaults
to `goal`. -/
theorem c7_exhaustion_or_stale_pop (G : AGraph) (isFin : Nat → List (Nat × Nat) → Bool)
    (fuel goal : Nat) (start : Option Nat) (r : Except AErr (List Nat))
    (hfin : ∀ n p, isFin n p = false)
    (h : AStarAlgorithm.find_path G isFin fuel goal start = some r) :
    (r = Except.error AErr.pathNotFound ∨ r = Except.error AErr.keyError)
    ∧ AStarAlgorithm.find_path G isFin fuel goal none
        = AStarAlgorithm.find_path G isFin fuel goal (some goal) := by
  constructor
  · unfold AStarAlgorithm.find_path at h
    refine AStarAlgorithm.astar_loop_no_finish G isFin hfin fuel _ r ⟨List.nodup_singleton _, ?_⟩ h
    intro n hn
    refine ⟨(0, start.getD goal), List.mem_singleton_self _, ?_⟩
    exact (List.mem_singleton.mp hn).symm
  · rfl

theorem c7_exhaustion_or_stale_pop_witness :
    AStarAlgorithm.find_path G7w isFinFalse 3 0 none = some (Except.error AErr.pathNotFound)
    ∧ ((Except.error AErr.pathNotFound : Except AErr (List Nat))
          = Except.error AErr.pathNotFound
        ∨ (Except.error AErr.pathNotFound : Except AErr (List Nat))
          = Except.error AErr.keyError) :=
  ⟨by decide,
   (c7_exhaustion_or_stale_pop G7w isFinFalse 3 0 none _ (fun _ _ => rfl) (by decide)).1⟩

/-! ## C2 — net effect of a staged subscribe/unsubscribe batch -/

theorem dlookup_append (k : Nat) (l1 l2 : List (Nat × α)) :
    dlookup k (l1 ++ l2)
      = match dlookup k l1 with
        | some v => some v
        | none => dlookup k l2 := by
  induction l1 with
  | nil => simp [dlookup]
  | cons hd tl ih =>
    obtain ⟨a, b⟩ := hd
    by_cases hak : a = k
    · simp [dlookup, hak]
    · simp [dlookup, hak, ih]

theorem dlookup_eq_none_of_not_mem_keys {k : Nat} {l : List (Nat × α)}
    (h : k ∉ l.map Prod.fst) : dlookup k l = none := by
  induction l with
  | nil => rfl
  | cons hd tl ih =>
    obtain ⟨a, b⟩ := hd
    simp only [List.map_cons, List.mem_cons] at h
    push_neg at h
    simp [dlookup, Ne.symm h.1, ih h.2]

theorem mem_keys_dinsert {x k : Nat} {v : α} {l : List (Nat × α)} :
    x ∈ (dinsert k v l).map Prod.fst ↔ x = k ∨ x ∈ l.map Prod.fst := by
  induction l with
  | nil => simp [dinsert]
  | cons hd tl ih =>
    obtain ⟨a, b⟩ := hd
    by_cases hak : a = k
    · subst hak
      simp [dinsert]
    · simp only [dinsert, if_neg hak, List.map_cons, List.mem_cons, ih]
      tauto

theorem keysNodup_dinsert {k : Nat} {v : α} {l : List (Nat × α)}
    (h : keysNodup l) : keysNodup (dinsert k v l) := by
  induction l with
  | nil => simp [keysNodup, dinsert]
  | cons hd tl ih =>
    obtain ⟨a, b⟩ := hd
    unfold keysNodup at h
    simp only [List.map_cons, List.nodup_cons] at h
    by_cases hak : a = k
    · subst hak
      have hd : dinsert a v ((a, b) :: tl) = (a, v) :: tl := by simp [dinsert]
      unfold keysNodup
      rw [hd]
      simp only [List.map_cons, List.nodup_cons]
      exact h
    · unfold keysNodup
      simp only [dinsert, if_neg hak, List.map_cons, List.nodup_cons]
      refine ⟨fun hmem => ?_, ih h.2⟩
      rcases mem_keys_dinsert.mp hmem with hx | hx
      · exact hak hx
      · exact h.1 hx

theorem mem_keys_dremove {x k : Nat} {l : List (Nat × α)}
    (h : x ∈ (dremove k l).map Prod.fst) : x ∈ l.map Prod.fst := by
  induction l with
  | nil => simpa [dremove] using h
  | cons hd tl ih =>
    obtain ⟨a, b⟩ := hd
    by_cases hak : a = k
    · simp only [dremove, if_pos hak] at h
      simp [h]
    · simp only [dremove, if_neg hak, List.map_cons, List.mem_cons] at h ⊢
      rcases h with h | h
      · exact Or.inl h
      · exact Or.inr (ih h)

theorem keysNodup_dremove {k : Nat} {l : List (Nat × α)}
    (h : keysNodup l) : keysNodup (dremove k l) := by
  induction l with
  | nil => simpa [dremove] using h
  | cons hd tl ih =>
    obtain ⟨a, b⟩ := hd
    unfold keysNodup at h ⊢
    simp only [List.map_cons, List.nodup_cons] at h
    by_cases hak : a = k
    · simp only [dremove, if_pos hak]
      exact h.2
    · simp only [dremove, if_neg hak, List.map_cons, List.nodup_cons]
      exact ⟨fun hm => h.1 (mem_keys_dremove hm), ih h.2⟩

theorem dlookup_dremove {k : Nat} {l : List (Nat × α)} (h : keysNodup l) (i : Nat) :
    dlookup i (dremove k l) = if k = i then none else dlookup i l := by
  induction l with
  | nil => simp [dremove, dlookup]
  | cons hd tl ih =>
    obtain ⟨a, b⟩ := hd
    unfold keysNodup at h
    simp only [List.map_cons, List.nodup_cons] at h
    by_cases hak : a = k
    · subst hak
      simp only [dremove, if_pos rfl]
      by_cases hai : a = i
      · subst hai
        simp [dlookup_eq_none_of_not_mem_keys h.1]
      · simp [dlookup, hai]
    · simp only [dremove, if_neg hak, dlookup]
      by_cases hai : a = i
      · subst hai
        have hka : ¬ k = a := fun hh => hak hh.symm
        simp [hka]
      · simp only [if_neg hai]
        rw [ih h.2]

theorem dremove_foldl_lookup (l : List Nat) :
    ∀ (dict : List (Nat × α)), keysNodup dict → ∀ i,
      dlookup i (l.foldl (fun d k => dremove k d) dict)
        = if i ∈ l then none else dlookup i dict := by
  induction l with
  | nil => intro dict _ i; simp
  | cons k rest ih =>
    intro dict hwf i
    simp only [List.foldl_cons]
    rw [ih (dremove k dict) (keysNodup_dremove hwf) i]
    by_cases hir : i ∈ rest
    · simp [hir]
    · rw [dlookup_dremove hwf i]
      by_cases hik : k = i
      · subst hik
        simp [List.mem_cons]
      · simp only [List.mem_cons, if_neg hir]
        have : ¬ (i = k ∨ i ∈ rest) := fun hh => by
          rcases hh with hh | hh
          · exact hik hh.symm
          · exact hir hh
        simp [this, hik]

theorem subsApplyLoop_lookup (hook : Nat → SubData → List Event) :
    ∀ (m live : List (Nat × SubData)) (i : Nat),
      dlookup i (Signal.subsApplyLoop hook m live).1
        = match dlookupLast i m with
          | some d => some d
          | none => dlookup i live := by
  intro m
  induction m with
  | nil => intro live i; simp [Signal.subsApplyLoop, dlookupLast]
  | cons hd rest ih =>
    obtain ⟨j, d⟩ := hd
    intro live i
    simp only [Signal.subsApplyLoop]
    rw [ih (dinsert j d live) i]
    simp only [dlookupLast]
    cases dlookupLast i rest with
    | some d' => simp
    | none =>
      simp only
      rw [dlookup_dinsert]
      by_cases hji : j = i
      · simp [hji]
      · simp [hji]

theorem subsApplyLoop_keysNodup (hook : Nat → SubData → List Event) :
    ∀ (m live : List (Nat × SubData)), keysNodup live →
      keysNodup (Signal.subsApplyLoop hook m live).1 := by
  intro m
  induction m with
  | nil => intro live h; exact h
  | cons hd rest ih =>
    obtain ⟨j, d⟩ := hd
    intro live h
    simp only [Signal.subsApplyLoop]
    exact ih (dinsert j d live) (keysNodup_dinsert h)

theorem dlookupLast_concat (k j : Nat) (d : α) (l : List (Nat × α)) :
    dlookupLast k (l ++ [(j, d)])
      = if j = k then some d else dlookupLast k l := by
  induction l with
  | nil => simp [dlookupLast]
  | cons hd tl ih =>
    obtain ⟨a, b⟩ := hd
    simp only [List.cons_append, dlookupLast, List.append_eq]
    rw [ih]
    by_cases hjk : j = k
    · simp [hjk]
    · simp [hjk]

theorem dlookupLast_reverse (k : Nat) (l : List (Nat × α)) :
    dlookupLast k l.reverse = dlookup k l := by
  induction l with
  | nil => rfl
  | cons hd tl ih =>
    obtain ⟨a, b⟩ := hd
    simp only [List.reverse_cons, dlookupLast_concat, dlookup, ih]

theorem update_state_fields (s s' : SigState) (h : Signal.update_state s = some s') :
    s'.subscribers
      = s.to_unsubscribe_context.foldl (fun d k => dremove k d)
          (Signal.subsApplyLoop (fun _ _ => []) s.to_subscribe_global.reverse s.subscribers).1
    ∧ s'.isolated_subscribers
      = s.to_unsubscribe_global.foldl (fun d k => dremove k d)
          (Signal.subsApplyLoop (fun _ _ => []) s.to_subscribe_context.reverse
            s.isolated_subscribers).1 := by
  unfold Signal.update_state Signal.update_state_hook at h
  cases hrc : Signal.removeChildren
      (s.to_add_child.foldl (fun ch pr => dinsert pr.1 pr.2 ch) s.children) s.to_remove_child with
  | none => simp only [hrc] at h; simp at h
  | some ch2 =>
    simp only [hrc, Option.map_some', Option.some.injEq] at h
    exact ⟨(congrArg SigState.subscribers h).symm, (congrArg SigState.isolated_subscribers h).symm⟩

theorem update_state_subscribers_lookup (s s' : SigState) (h : Signal.update_state s = some s')
    (hwf1 : keysNodup s.subscribers) (hwf2 : keysNodup s.isolated_subscribers) (i : Nat) :
    (dlookup i s'.subscribers
      = if i ∈ s.to_unsubscribe_context then none
        else match dlookup i s.to_subscribe_global with
          | some d => some d
          | none => dlookup i s.subscribers)
    ∧ (dlookup i s'.isolated_subscribers
      = if i ∈ s.to_unsubscribe_global then none
        else match dlookup i s.to_subscribe_context with
          | some d => some d
          | none => dlookup i s.isolated_subscribers) := by
  obtain ⟨h1, h2⟩ := update_state_fields s s' h
  constructor
  · rw [h1, dremove_foldl_lookup _ _ (subsApplyLoop_keysNodup _ _ _ hwf1) i,
      subsApplyLoop_lookup _ _ _ i, dlookupLast_reverse]
  · rw [h2, dremove_foldl_lookup _ _ (subsApplyLoop_keysNodup _ _ _ hwf2) i,
      subsApplyLoop_lookup _ _ _ i, dlookupLast_reverse]

theorem queuesEq_trans {a b c : SigState} (h1 : queuesEq a b) (h2 : queuesEq b c) :
    queuesEq a c :=
  ⟨h1.1.trans h2.1, h1.2.1.trans h2.2.1, h1.2.2.1.trans h2.2.2.1, h1.2.2.2.trans h2.2.2.2⟩

theorem remove_parent_queues (s : SigState) (i p : Nat) :
    queuesEq (Signal.remove_parent s i p) s :=
  ⟨rfl, rfl, rfl, rfl⟩

theorem unsubscribe_queues (s : SigState) (c : Bool) (i : Nat) :
    queuesEq (Signal.unsubscribe s c i)
      ((if c then { s with to_unsubscribe_global := s.to_unsubscribe_global ++ [i] }
        else { s with to_unsubscribe_context := s.to_unsubscribe_context ++ [i] }) : SigState) := by
  suffices h : ∀ s1 : SigState,
      queuesEq (s1.children.foldl
        (fun t pr => if i ∈ pr.2 then Signal.remove_parent t i pr.1 else t)
        (match dlookup i s1.children with
         | some cs => cs.foldl (fun t child => Signal.remove_parent t child i) s1
         | none => s1)) s1 by
    exact h _
  intro s1
  have h2 : queuesEq (match dlookup i s1.children with
      | some cs => cs.foldl (fun t child => Signal.remove_parent t child i) s1
      | none => s1) s1 := by
    cases dlookup i s1.children with
    | none => exact ⟨rfl, rfl, rfl, rfl⟩
    | some cs =>
      exact foldl_preserve _ (fun t => queuesEq t s1)
        (fun t child h => queuesEq_trans (remove_parent_queues t child i) h) cs s1
        ⟨rfl, rfl, rfl, rfl⟩
  exact foldl_preserve _ (fun t => queuesEq t s1)
    (fun t pr h => by
      by_cases hm : i ∈ pr.2
      · simpa [hm] using queuesEq_trans (remove_parent_queues t i pr.1) h
      · simpa [hm] using h) s1.children _ h2

theorem applyStage_to_subscribe_global (op : Signal.StageOp) (s : SigState) :
    (Signal.applyStage op s).to_subscribe_global
      = match op with
        | .sub false i' d => dinsert i' d s.to_subscribe_global
        | _ => s.to_subscribe_global := by
  cases op with
  | sub c i' d => cases c <;> rfl
  | unsub c i' =>
    have h := (unsubscribe_queues s c i').1
    cases c <;> simpa using h
  | setParent i' p => rfl
  | removeParent i' p => rfl

theorem applyStage_to_subscribe_context (op : Signal.StageOp) (s : SigState) :
    (Signal.applyStage op s).to_subscribe_context
      = match op with
        | .sub true i' d => dinsert i' d s.to_subscribe_context
        | _ => s.to_subscribe_context := by
  cases op with
  | sub c i' d => cases c <;> rfl
  | unsub c i' =>
    have h := (unsubscribe_queues s c i').2.1
    cases c <;> simpa using h
  | setParent i' p => rfl
  | removeParent i' p => rfl

theorem applyStage_to_unsubscribe_context (op : Signal.StageOp) (s : SigState) :
    (Signal.applyStage op s).to_unsubscribe_context
      = match op with
        | .unsub false i' => s.to_unsubscribe_context ++ [i']
        | _ => s.to_unsubscribe_context := by
  cases op with
  | sub c i' d => cases c <;> rfl
  | unsub c i' =>
    have h := (unsubscribe_queues s c i').2.2.1
    cases c <;> simpa using h
  | setParent i' p => rfl
  | removeParent i' p => rfl

theorem applyStage_to_unsubscribe_global (op : Signal.StageOp) (s : SigState) :
    (Signal.applyStage op s).to_unsubscribe_global
      = match op with
        | .unsub true i' => s.to_unsubscribe_global ++ [i']
        | _ => s.to_unsubscribe_global := by
  cases op with
  | sub c i' d => cases c <;> rfl
  | unsub c i' =>
    have h := (unsubscribe_queues s c i').2.2.2
    cases c <;> simpa using h
  | setParent i' p => rfl
  | removeParent i' p => rfl

theorem applyBatch_pending (ops : List Signal.StageOp) :
    ∀ (s : SigState) (i : Nat),
      (dlookup i (Signal.applyBatch s ops).to_subscribe_global
        = match Signal.lastSub false i ops with
          | some d => some d
          | none => dlookup i s.to_subscribe_global)
      ∧ (dlookup i (Signal.applyBatch s ops).to_subscribe_context
        = match Signal.lastSub true i ops with
          | some d => some d
          | none => dlookup i s.to_subscribe_context)
      ∧ ((i ∈ (Signal.applyBatch s ops).to_unsubscribe_context)
          ↔ (Signal.hasUnsub false i ops = true ∨ i ∈ s.to_unsubscribe_context))
      ∧ ((i ∈ (Signal.applyBatch s ops).to_unsubscribe_global)
          ↔ (Signal.hasUnsub true i ops = true ∨ i ∈ s.to_unsubscribe_global)) := by
  induction ops with
  | nil =>
    intro s i
    refine ⟨rfl, rfl, ?_, ?_⟩ <;> simp [Signal.hasUnsub, Signal.applyBatch]
  | cons op rest ih =>
    intro s i
    have hstep : Signal.applyBatch s (op :: rest)
        = Signal.applyBatch (Signal.applyStage op s) rest := rfl
    rw [hstep]
    obtain ⟨ih1, ih2, ih3, ih4⟩ := ih (Signal.applyStage op s) i
    refine ⟨?_, ?_, ?_, ?_⟩
    · rw [ih1, applyStage_to_subscribe_global]
      cases hls : Signal.lastSub false i rest with
      | some d0 => simp [Signal.lastSub, hls]
      | none =>
        simp only [Signal.lastSub, hls]
        cases op with
        | sub c i' d =>
          cases c
          · simp only
            rw [dlookup_dinsert]
            by_cases hii : i' = i
            · simp [hii]
            · simp [hii]
          · simp
        | unsub c i' => simp
        | setParent i' p => simp
        | removeParent i' p => simp
    · rw [ih2, applyStage_to_subscribe_context]
      cases hls : Signal.lastSub true i rest with
      | some d0 => simp [Signal.lastSub, hls]
      | none =>
        simp only [Signal.lastSub, hls]
        cases op with
        | sub c i' d =>
          cases c
          · simp
          · simp only
            rw [dlookup_dinsert]
            by_cases hii : i' = i
            · simp [hii]
            · simp [hii]
        | unsub c i' => simp
        | setParent i' p => simp
        | removeParent i' p => simp
    · rw [ih3, applyStage_to_unsubscribe_context]
      cases op with
      | sub c i' d =>
        simp [Signal.hasUnsub, List.any_cons]
      | unsub c i' =>
        cases c
        · have hhu : Signal.hasUnsub false i (Signal.StageOp.unsub false i' :: rest)
              = (decide (i' = i) || Signal.hasUnsub false i rest) := by
            simp [Signal.hasUnsub]
          rw [hhu]
          simp only [List.mem_append, List.mem_singleton, Bool.or_eq_true, decide_eq_true_eq]
          constructor
          · rintro (h | h | h)
            · exact Or.inl (Or.inr h)
            · exact Or.inr h
            · exact Or.inl (Or.inl h.symm)
          · rintro ((h | h) | h)
            · exact Or.inr (Or.inr h.symm)
            · exact Or.inl h
            · exact Or.inr (Or.inl h)
        · have hhu : Signal.hasUnsub false i (Signal.StageOp.unsub true i' :: rest)
              = Signal.hasUnsub false i rest := by
            simp [Signal.hasUnsub]
          rw [hhu]
      | setParent i' p => simp [Signal.hasUnsub, List.any_cons]
      | removeParent i' p => simp [Signal.hasUnsub, List.any_cons]
    · rw [ih4, applyStage_to_unsubscribe_global]
      cases op with
      | sub c i' d =>
        simp [Signal.hasUnsub, List.any_cons]
      | unsub c i' =>
        cases c
        · have hhu : Signal.hasUnsub true i (Signal.StageOp.unsub false i' :: rest)
              = Signal.hasUnsub true i rest := by
            simp [Signal.hasUnsub]
          rw [hhu]
        · have hhu : Signal.hasUnsub true i (Signal.StageOp.unsub true i' :: rest)
              = (decide (i' = i) || Signal.hasUnsub true i rest) := by
            simp [Signal.hasUnsub]
          rw [hhu]
          simp only [List.mem_append, List.mem_singleton, Bool.or_eq_true, decide_eq_true_eq]
          constructor
          · rintro (h | h | h)
            · exact Or.inl (Or.inr h)
            · exact Or.inr h
            · exact Or.inl (Or.inl h.symm)
          · rintro ((h | h) | h)
            · exact Or.inr (Or.inr h.symm)
            · exact Or.inl h
            · exact Or.inr (Or.inl h)
      | setParent i' p => simp [Signal.hasUnsub, List.any_cons]
      | removeParent i' p => simp [Signal.hasUnsub, List.any_cons]

theorem applyBatch_live (ops : List Signal.StageOp) (s : SigState) :
    liveEq (Signal.applyBatch s ops) s := by
  unfold Signal.applyBatch
  exact foldl_preserve _ (fun t => liveEq t s)
    (fun t op h => liveEq_trans (stage_live op t) h) ops s (liveEq_refl s)

/-- C2: for every batch of subscribe and unsubscribe calls staged on a Signal
class before a single `update_state`, the live registry afterwards reflects
exactly the batch's net effect per identifier and scope: an identifier the
batch unsubscribes is absent; otherwise the last staged subscribe (if any)
wins; otherwise the live entry is untouched.  The result depends on the batch
only through these per-identifier descriptors, so staging order across
different identifiers is immaterial, and a same-identifier subscribe followed
by an unsubscribe nets to absent.  The source's swapped queue pairing
(`unsubscribe` stages contextual entries in `to_unsubscribe_global`, which
`update_state` pops from `isolated_subscribers`, and conversely) composes to
this correct net effect. -/
theorem c2_batch_net_effect (s0 : SigState) (ops : List Signal.StageOp) (s1 : SigState) (i : Nat)
    (hpe : pendingEmpty s0)
    (hops : ∀ op ∈ ops, Signal.is_sub_unsub op = true)
    (hwf1 : keysNodup s0.subscribers) (hwf2 : keysNodup s0.isolated_subscribers)
    (hupd : Signal.update_state (Signal.applyBatch s0 ops) = some s1) :
    (dlookup i s1.subscribers
      = if Signal.hasUnsub false i ops = true then none
        else match Signal.lastSub false i ops with
          | some d => some d
          | none => dlookup i s0.subscribers)
    ∧ (dlookup i s1.isolated_subscribers
      = if Signal.hasUnsub true i ops = true then none
        else match Signal.lastSub true i ops with
          | some d => some d
          | none => dlookup i s0.isolated_subscribers) := by
  obtain ⟨hpg, hpc, huc, hug, _, _⟩ := hpe
  have hlive := applyBatch_live ops s0
  have hch := update_state_subscribers_lookup (Signal.applyBatch s0 ops) s1 hupd
    (by rw [hlive.1]; exact hwf1) (by rw [hlive.2.1]; exact hwf2) i
  obtain ⟨hb1, hb2, hb3, hb4⟩ := applyBatch_pending ops s0 i
  rw [huc] at hb3
  rw [hug] at hb4
  simp only [List.not_mem_nil, or_false] at hb3 hb4
  constructor
  · rw [hch.1, hb1, hpg, hlive.1]
    by_cases hu : Signal.hasUnsub false i ops = true
    · rw [if_pos (hb3.mpr hu), if_pos hu]
    · rw [if_neg (fun hmem => hu (hb3.mp hmem)), if_neg hu]
      cases Signal.lastSub false i ops with
      | some d => rfl
      | none => simp [dlookup]
  · rw [hch.2, hb2, hpc, hlive.2.1]
    by_cases hu : Signal.hasUnsub true i ops = true
    · rw [if_pos (hb4.mpr hu), if_pos hu]
    · rw [if_neg (fun hmem => hu (hb4.mp hmem)), if_neg hu]
      cases Signal.lastSub true i ops with
      | some d => rfl
      | none => simp [dlookup]

theorem c2_batch_net_effect_witness :
    (dlookup 7 s1c2.subscribers
      = if Signal.hasUnsub false 7 c2ops = true then none
        else match Signal.lastSub false 7 c2ops with
          | some d => some d
          | none => dlookup 7 s0c2.subscribers)
    ∧ (dlookup 7 s1c2.isolated_subscribers
      = if Signal.hasUnsub true 7 c2ops = true then none
        else match Signal.lastSub true 7 c2ops with
          | some d => some d
          | none => dlookup 7 s0c2.isolated_subscribers) :=
  c2_batch_net_effect s0c2 c2ops s1c2 7 ⟨rfl, rfl, rfl, rfl, rfl, rfl⟩ (by decide)
    (by unfold keysNodup; decide) (by unfold keysNodup; decide) (by decide)

/-! ## C4 — targeted dispatch over the forest -/

theorem dlookup_mem {k : Nat} {v : α} {l : List (Nat × α)} (h : dlookup k l = some v) :
    (k, v) ∈ l := by
  induction l with
  | nil => exact absurd h (by simp [dlookup])
  | cons hd tl ih =>
    obtain ⟨a, b⟩ := hd
    by_cases hak : a = k
    · subst hak
      have hb : b = v := by simpa [dlookup] using h
      rw [← hb]
      exact List.mem_cons_self _ _
    · simp only [dlookup, if_neg hak] at h
      exact List.mem_cons_of_mem _ (ih h)

theorem invoke_targets_succ (cls : Nat) (iso : List (Nat × SubData))
    (ch : List (Nat × List Nat)) (args : List Nat) (t : Option Nat)
    (kw : List (Nat × Nat)) (f addr : Nat) :
    Signal.invoke_targets cls iso ch args t kw (f + 1) addr
      = (match dlookup addr iso with
         | some d0 => [Signal.invoke_signal cls args t kw d0]
         | none => []) ++
        (match dlookup addr ch with
         | some cs => cs.flatMap (fun c => Signal.invoke_targets cls iso ch args t kw f c)
         | none => []) := rfl

theorem invoke_targets_mem_cb (cls : Nat) (iso : List (Nat × SubData))
    (ch : List (Nat × List Nat)) (args : List Nat) (t : Option Nat) (kw : List (Nat × Nat)) :
    ∀ (fuel addr : Nat), ∀ e ∈ Signal.invoke_targets cls iso ch args t kw fuel addr,
      ∃ q ∈ iso, e.cb = q.2.cb := by
  intro fuel
  induction fuel with
  | zero => intro addr e he; simp [Signal.invoke_targets] at he
  | succ f ih =>
    intro addr e he
    rw [invoke_targets_succ] at he
    rcases List.mem_append.mp he with h | h
    · cases hd : dlookup addr iso with
      | some dd =>
        rw [hd] at h
        simp only [List.mem_singleton] at h
        subst h
        exact ⟨(addr, dd), dlookup_mem hd, rfl⟩
      | none => rw [hd] at h; simp at h
    · cases hc : dlookup addr ch with
      | some cs =>
        rw [hc] at h
        simp only [List.mem_flatMap] at h
        obtain ⟨c, _, hcmem⟩ := h
        exact ih c e hcmem
      | none => rw [hc] at h; simp at h

theorem invoke_general_mem_cb (cls : Nat) (subs : List (Nat × SubData)) (args : List Nat)
    (t : Option Nat) (kw : List (Nat × Nat)) :
    ∀ e ∈ Signal.invoke_general cls subs args t kw, ∃ q ∈ subs, e.cb = q.2.cb := by
  intro e he
  simp only [Signal.invoke_general, List.mem_map] at he
  obtain ⟨q, hq, rfl⟩ := he
  exact ⟨q, hq, rfl⟩

theorem invoke_mem_cb (fuel : Nat) (chain : List (Nat × SigState)) (args : List Nat)
    (t : Option Nat) (kw : List (Nat × Nat)) :
    ∀ e ∈ Signal.invoke fuel chain args t kw,
      ∃ pr ∈ chain, (∃ q ∈ pr.2.subscribers, e.cb = q.2.cb)
        ∨ ∃ q ∈ pr.2.isolated_subscribers, e.cb = q.2.cb := by
  induction chain with
  | nil => intro e he; simp [Signal.invoke] at he
  | cons pr rest ih =>
    obtain ⟨cid, st⟩ := pr
    intro e he
    rcases List.mem_append.mp he with h | h
    · unfold Signal.class_invoke at h
      rcases List.mem_append.mp h with h | h
      · cases t with
        | none => simp at h
        | some tv =>
          obtain ⟨q, hq, hcb⟩ := invoke_targets_mem_cb cid st.isolated_subscribers st.children
            args (some tv) kw fuel tv e h
          exact ⟨(cid, st), List.mem_cons_self _ _, Or.inr ⟨q, hq, hcb⟩⟩
      · obtain ⟨q, hq, hcb⟩ := invoke_general_mem_cb cid st.subscribers args t kw e h
        exact ⟨(cid, st), List.mem_cons_self _ _, Or.inl ⟨q, hq, hcb⟩⟩
    · obtain ⟨pr', hpr', hq⟩ := ih e h
      exact ⟨pr', List.mem_cons_of_mem _ hpr', hq⟩

theorem cbFilter_append (c : Nat) (l1 l2 : List Event) :
    cbFilter c (l1 ++ l2) = cbFilter c l1 ++ cbFilter c l2 := by
  unfold cbFilter
  exact List.filter_append _ _

theorem cbFilter_eq_nil {c : Nat} {l : List Event} (h : ∀ e ∈ l, e.cb ≠ c) :
    cbFilter c l = [] := by
  unfold cbFilter
  induction l with
  | nil => rfl
  | cons hd tl ih =>
    have hne : (hd.cb == c) = false := by
      simp only [beq_eq_false_iff_ne, ne_eq]
      exact h hd (List.mem_cons_self _ _)
    simp only [List.filter_cons, hne]
    exact ih (fun e he => h e (List.mem_cons_of_mem _ he))

/-- C4: with applied edges P → C and C → G, a contextual subscriber registered
at G, and no other registrations involving P, C, G on this class or its
ancestors, `invoke(target=P)` calls G's callback exactly once — once per tree
position where the identifier is itself a key of `isolated_subscribers`, not
once per descendant visited. -/
theorem c4_contextual_fires_once (fuel cls : Nat) (s : SigState)
    (anc : List (Nat × SigState)) (d : SubData) (P C G : Nat) (args : List Nat)
    (kwargs : List (Nat × Nat))
    (h1 : dlookup P s.children = some [C])
    (h2 : dlookup C s.children = some [G])
    (h3 : dlookup G s.children = none)
    (h4 : dlookup G s.isolated_subscribers = some d)
    (h5 : dlookup P s.isolated_subscribers = none)
    (h6 : dlookup C s.isolated_subscribers = none)
    (h7 : ∀ q ∈ s.subscribers, q.2.cb ≠ d.cb)
    (h8 : ∀ pr ∈ anc, (∀ q ∈ pr.2.subscribers, q.2.cb ≠ d.cb)
        ∧ ∀ q ∈ pr.2.isolated_subscribers, q.2.cb ≠ d.cb)
    (h9 : 3 ≤ fuel) :
    (cbFilter d.cb (Signal.invoke fuel ((cls, s) :: anc) args (some P) kwargs)).length = 1 := by
  obtain ⟨k, rfl⟩ : ∃ k, fuel = k + 3 := ⟨fuel - 3, by omega⟩
  have htgt : Signal.invoke_targets cls s.isolated_subscribers s.children args (some P) kwargs
      (k + 3) P = [Signal.invoke_signal cls args (some P) kwargs d] := by
    rw [show k + 3 = (k + 2) + 1 from rfl, invoke_targets_succ, h5, h1]
    dsimp only
    simp only [List.flatMap_cons, List.flatMap_nil, List.nil_append, List.append_nil]
    rw [show k + 2 = (k + 1) + 1 from rfl, invoke_targets_succ, h6, h2]
    dsimp only
    simp only [List.flatMap_cons, List.flatMap_nil, List.nil_append, List.append_nil]
    rw [invoke_targets_succ, h4, h3]
    dsimp only
    simp
  have hchain : cbFilter d.cb (Signal.invoke (k + 3) anc args (some P) kwargs) = [] := by
    apply cbFilter_eq_nil
    intro e he hc
    obtain ⟨pr, hpr, hq⟩ := invoke_mem_cb (k + 3) anc args (some P) kwargs e he
    rcases hq with ⟨q, hqm, hcb⟩ | ⟨q, hqm, hcb⟩
    · exact (h8 pr hpr).1 q hqm (hcb ▸ hc)
    · exact (h8 pr hpr).2 q hqm (hcb ▸ hc)
  have hgen : cbFilter d.cb (Signal.invoke_general cls s.subscribers args (some P) kwargs)
      = [] := by
    apply cbFilter_eq_nil
    intro e he hc
    obtain ⟨q, hqm, hcb⟩ := invoke_general_mem_cb cls s.subscribers args (some P) kwargs e he
    exact h7 q hqm (hcb ▸ hc)
  rw [show Signal.invoke (k + 3) ((cls, s) :: anc) args (some P) kwargs
      = (Signal.invoke_targets cls s.isolated_subscribers s.children args (some P) kwargs
          (k + 3) P ++ Signal.invoke_general cls s.subscribers args (some P) kwargs)
        ++ Signal.invoke (k + 3) anc args (some P) kwargs from rfl]
  rw [cbFilter_append, cbFilter_append, htgt, hgen, hchain]
  simp [cbFilter, Signal.invoke_signal]

theorem c4_contextual_fires_once_witness :
    (cbFilter dIso.cb (Signal.invoke 3 [(5, s4fix)] [9] (some 1) [])).length = 1 :=
  c4_contextual_fires_once 3 5 s4fix [] dIso 1 2 3 [9] []
    (by decide) (by decide) (by decide) (by decide) (by decide) (by decide)
    (by decide) (by decide) (by decide)

/-! ## C9 — hierarchical pathfinder: coarse pass-through and funnel endpoints -/

/-- C9: with both algorithm slots well-formed (the low-fidelity one
succeeding, the high-fidelity one being the funnel refinement),
`low_resolution=True` returns the low-fidelity corridor exactly and
untouched, and `low_resolution=False` returns the funnel-refined point list,
whose first element is the source position and whose last element is the
destination position. -/
theorem c9_pathfinder_endpoints (P N E : Type) [DecidableEq P]
    (pf : PathfinderAlgorithm P N (List P) E) (area : P → P → P → Int)
    (portalTo : N → N → EndPortal P) (fuel : Nat) (s d : P) (nodes : List N)
    (f : N → N → List N → Except E (List N)) (corridor : List N)
    (hlow : pf.low_resolution = some f)
    (hok : f (pf.spatial_lookup s) (pf.spatial_lookup d) nodes = Except.ok corridor)
    (hhigh : pf.high_resolution
      = some (fun s' d' ns => Except.ok (FunnelAlgorithm.find_path area portalTo fuel s' d' ns))) :
    pf.find_path s d nodes true = Except.ok (PFResult.coarse corridor)
    ∧ pf.find_path s d nodes false
        = Except.ok (PFResult.refined (FunnelAlgorithm.find_path area portalTo fuel s d corridor))
    ∧ (FunnelAlgorithm.find_path area portalTo fuel s d corridor).head? = some s
    ∧ (FunnelAlgorithm.find_path area portalTo fuel s d corridor).getLast? = some d := by
  refine ⟨?_, ?_, ?_, ?_⟩
  · simp [PathfinderAlgorithm.find_path, hlow, hok]
  · simp [PathfinderAlgorithm.find_path, hlow, hok, hhigh]
  · simp [FunnelAlgorithm.find_path]
  · unfold FunnelAlgorithm.find_path
    exact List.getLast?_concat _

theorem c9_pathfinder_endpoints_witness :
    PathfinderAlgorithm.find_path pfC9 0 1 [0, 1] true = Except.ok (PFResult.coarse [0, 1])
    ∧ (FunnelAlgorithm.find_path area0 portalTo0 10 0 1 [0, 1]).head? = some 0
    ∧ (FunnelAlgorithm.find_path area0 portalTo0 10 0 1 [0, 1]).getLast? = some 1 := by
  have h := c9_pathfinder_endpoints Nat Nat Unit pfC9 area0 portalTo0 10 0 1 [0, 1]
    (fun a b _ => Except.ok [a, b]) [0, 1] rfl rfl rfl
  exact ⟨h.1, h.2.2.1, h.2.2.2⟩

/-! ## C3 / C10 — cached-signal replay -/

theorem update_state_hook_fields (hook : Bool → Nat → SubData → List Event) (s s' : SigState)
    (evs : List Event) (h : Signal.update_state_hook hook s = some (s', evs)) :
    s'.subscribers
      = s.to_unsubscribe_context.foldl (fun d k => dremove k d)
          (Signal.subsApplyLoop (hook false) s.to_subscribe_global.reverse s.subscribers).1
    ∧ s'.isolated_subscribers
      = s.to_unsubscribe_global.foldl (fun d k => dremove k d)
          (Signal.subsApplyLoop (hook true) s.to_subscribe_context.reverse
            s.isolated_subscribers).1
    ∧ evs = (Signal.subsApplyLoop (hook false) s.to_subscribe_global.reverse s.subscribers).2
        ++ (Signal.subsApplyLoop (hook true) s.to_subscribe_context.reverse
            s.isolated_subscribers).2 := by
  unfold Signal.update_state_hook at h
  cases hrc : Signal.removeChildren
      (s.to_add_child.foldl (fun ch pr => dinsert pr.1 pr.2 ch) s.children) s.to_remove_child with
  | none => simp only [hrc] at h; exact absurd h (by simp)
  | some ch2 =>
    simp only [hrc, Option.some.injEq] at h
    injection h with h1 h2
    exact ⟨(congrArg SigState.subscribers h1).symm,
      (congrArg SigState.isolated_subscribers h1).symm, h2.symm⟩

theorem cached_update_state_inv (fuel cls : Nat) (cs : CachedState)
    (anc : List (Nat × SigState)) (s1 : CachedState) (trace : List Event)
    (h : CachedSignal.update_state fuel cls cs anc = some (s1, trace)) :
    Signal.update_state_hook (CachedSignal.on_subscribed fuel cls cs anc) cs.base
      = some (s1.base, trace) ∧ s1.cache = cs.cache := by
  unfold CachedSignal.update_state at h
  cases hh : Signal.update_state_hook (CachedSignal.on_subscribed fuel cls cs anc) cs.base with
  | none => rw [hh] at h; exact absurd h (by simp)
  | some p =>
    obtain ⟨b, evs⟩ := p
    rw [hh] at h
    simp only [Option.map_some', Option.some.injEq] at h
    injection h with hA hB
    subst hA
    subst hB
    exact ⟨rfl, rfl⟩

theorem cached_replay_trace (fuel cls : Nat) (cs : CachedState) (anc : List (Nat × SigState))
    (i : Nat) (d : SubData) (s1 : CachedState) (trace : List Event)
    (hg : cs.base.to_subscribe_global = [(i, d)])
    (hc : cs.base.to_subscribe_context = [])
    (hupd : CachedSignal.update_state fuel cls cs anc = some (s1, trace)) :
    trace = cs.cache.flatMap (fun inv =>
        Signal.invoke_signal cls inv.args inv.target inv.kwargs d
          :: Signal.invoke fuel anc inv.args inv.target inv.kwargs)
    ∧ s1.base.subscribers
        = cs.base.to_unsubscribe_context.foldl (fun dd k => dremove k dd)
            (dinsert i d cs.base.subscribers)
    ∧ s1.base.isolated_subscribers
        = cs.base.to_unsubscribe_global.foldl (fun dd k => dremove k dd)
            cs.base.isolated_subscribers
    ∧ s1.cache = cs.cache := by
  obtain ⟨hhook, hcache⟩ := cached_update_state_inv fuel cls cs anc s1 trace hupd
  obtain ⟨hf1, hf2, hf3⟩ := update_state_hook_fields _ _ _ _ hhook
  rw [hg] at hf1 hf3
  rw [hc] at hf2 hf3
  simp only [List.reverse_cons, List.reverse_nil, List.nil_append,
    Signal.subsApplyLoop, List.append_nil] at hf1 hf2 hf3
  refine ⟨?_, hf1, hf2, hcache⟩
  rw [hf3]
  simp only [CachedSignal.on_subscribed, if_neg (by simp : ¬False), Bool.false_eq_true,
    ite_false]
  unfold CachedSignal.invoke
  simp [Signal.invoke_general]

theorem flatMap_singleton_map (g : α → Event) (l : List α) :
    (l.flatMap (fun x => [g x])) = l.map g := by
  induction l with
  | nil => rfl
  | cons hd tl ih => simp only [List.flatMap_cons, List.map_cons, List.singleton_append, ih]

theorem cbFilter_flatMap (c : Nat) (f : α → List Event) (l : List α) :
    cbFilter c (l.flatMap f) = l.flatMap (fun x => cbFilter c (f x)) := by
  induction l with
  | nil => rfl
  | cons hd tl ih => simp only [List.flatMap_cons, cbFilter_append, ih]

theorem cbFilter_cons_self {c : Nat} {e : Event} (h : e.cb = c) (l : List Event) :
    cbFilter c (e :: l) = e :: cbFilter c l := by
  unfold cbFilter
  simp [List.filter_cons, h]

theorem cbFilter_general_dinsert (cls : Nat) (args : List Nat) (t : Option Nat)
    (kw : List (Nat × Nat)) (i : Nat) (d : SubData) (subs : List (Nat × SubData))
    (h : ∀ q ∈ subs, q.2.cb ≠ d.cb) :
    cbFilter d.cb (Signal.invoke_general cls (dinsert i d subs) args t kw)
      = [Signal.invoke_signal cls args t kw d] := by
  induction subs with
  | nil => simp [dinsert, Signal.invoke_general, cbFilter, List.filter, Signal.invoke_signal]
  | cons hd tl ih =>
    obtain ⟨a, b⟩ := hd
    by_cases hai : a = i
    · subst hai
      have hrest : cbFilter d.cb (Signal.invoke_general cls tl args t kw) = [] := by
        apply cbFilter_eq_nil
        intro e he hc
        obtain ⟨q, hqm, hcb⟩ := invoke_general_mem_cb cls tl args t kw e he
        exact h q (List.mem_cons_of_mem _ hqm) (hcb ▸ hc)
      have hstep : dinsert a d ((a, b) :: tl) = (a, d) :: tl := by simp [dinsert]
      rw [hstep]
      rw [show Signal.invoke_general cls ((a, d) :: tl) args t kw
          = Signal.invoke_signal cls args t kw d :: Signal.invoke_general cls tl args t kw
          from rfl]
      rw [cbFilter_cons_self (show (Signal.invoke_signal cls args t kw d).cb = d.cb from rfl),
        hrest]
    · have hstep : dinsert i d ((a, b) :: tl) = (a, b) :: dinsert i d tl := by
        simp [dinsert, hai]
      rw [hstep]
      rw [show Signal.invoke_general cls ((a, b) :: dinsert i d tl) args t kw
          = Signal.invoke_signal cls args t kw b
              :: Signal.invoke_general cls (dinsert i d tl) args t kw from rfl]
      have hb : (Signal.invoke_signal cls args t kw b).cb ≠ d.cb :=
        h (a, b) (List.mem_cons_self _ _)
      unfold cbFilter
      rw [List.filter_cons]
      simp only [show ((Signal.invoke_signal cls args t kw b).cb == d.cb) = false by
        simpa [beq_eq_false_iff_ne] using hb]
      exact ih (fun q hq => h q (List.mem_cons_of_mem _ hq))

theorem invoke_general_mem_of (cls : Nat) (subs : List (Nat × SubData)) (args : List Nat)
    (t : Option Nat) (kw : List (Nat × Nat)) {q : Nat × SubData} (h : q ∈ subs) :
    Signal.invoke_signal cls args t kw q.2 ∈ Signal.invoke_general cls subs args t kw :=
  List.mem_map.mpr ⟨q, h, rfl⟩

theorem invoke_mem_of_chain (fuel : Nat) (chain : List (Nat × SigState)) (args : List Nat)
    (t : Option Nat) (kw : List (Nat × Nat)) {cid : Nat} {st : SigState} {q : Nat × SubData}
    (hpr : (cid, st) ∈ chain) (hq : q ∈ st.subscribers) :
    Signal.invoke_signal cid args t kw q.2 ∈ Signal.invoke fuel chain args t kw := by
  induction chain with
  | nil => simp at hpr
  | cons hd rest ih =>
    obtain ⟨cid2, st2⟩ := hd
    rcases List.mem_cons.mp hpr with heq | hmem
    · injection heq with he1 he2
      subst he1
      subst he2
      rw [show Signal.invoke fuel ((cid, st) :: rest) args t kw
          = Signal.class_invoke fuel cid st args t kw ++ Signal.invoke fuel rest args t kw
          from rfl]
      apply List.mem_append_left
      unfold Signal.class_invoke
      exact List.mem_append_right _ (invoke_general_mem_of cid st.subscribers args t kw hq)
    · rw [show Signal.invoke fuel ((cid2, st2) :: rest) args t kw
          = Signal.class_invoke fuel cid2 st2 args t kw ++ Signal.invoke fuel rest args t kw
          from rfl]
      exact List.mem_append_right _ (ih hmem)

/-- C3: for a `CachedSignal` class, (a) every fresh `invoke` appends
`(args, target, kwargs)` to the cache; (b) when one new global subscriber is
applied by `update_state` after the cached invocations, its callback is
immediately invoked with exactly those cached invocations in their original
chronological order, and a subsequent live invocation reaches it only after
the full replay; (c) a contextual subscriber applied by `update_state`
receives no replay at all. -/
theorem c3_cached_replay :
    (∀ (fuel cls : Nat) (cs : CachedState) (anc : List (Nat × SigState)) (args : List Nat)
        (target : Option Nat) (kwargs : List (Nat × Nat)),
      (CachedSignal.invoke fuel cls cs anc none args target kwargs).1.cache
        = cs.cache ++ [⟨args, target, kwargs⟩])
    ∧ (∀ (fuel cls : Nat) (cs : CachedState) (anc : List (Nat × SigState)) (i : Nat)
        (d : SubData) (s1 : CachedState) (trace : List Event),
      cs.base.to_subscribe_global = [(i, d)] →
      cs.base.to_subscribe_context = [] →
      cs.base.to_unsubscribe_context = [] →
      cs.base.to_unsubscribe_global = [] →
      (∀ q ∈ cs.base.subscribers, q.2.cb ≠ d.cb) →
      (∀ q ∈ cs.base.isolated_subscribers, q.2.cb ≠ d.cb) →
      (∀ pr ∈ anc, (∀ q ∈ pr.2.subscribers, q.2.cb ≠ d.cb)
          ∧ ∀ q ∈ pr.2.isolated_subscribers, q.2.cb ≠ d.cb) →
      CachedSignal.update_state fuel cls cs anc = some (s1, trace) →
      cbFilter d.cb trace
          = cs.cache.map (fun inv => Signal.invoke_signal cls inv.args inv.target inv.kwargs d)
        ∧ ∀ (args2 : List Nat) (target2 : Option Nat) (kwargs2 : List (Nat × Nat)),
          cbFilter d.cb
              (trace ++ (CachedSignal.invoke fuel cls s1 anc none args2 target2 kwargs2).2)
            = cs.cache.map
                (fun inv => Signal.invoke_signal cls inv.args inv.target inv.kwargs d)
              ++ [Signal.invoke_signal cls args2 target2 kwargs2 d])
    ∧ (∀ (fuel cls : Nat) (cs : CachedState) (anc : List (Nat × SigState)) (i : Nat)
        (d : SubData) (s1 : CachedState) (trace : List Event),
      cs.base.to_subscribe_global = [] →
      cs.base.to_subscribe_context = [(i, d)] →
      cs.base.to_unsubscribe_global = [] →
      CachedSignal.update_state fuel cls cs anc = some (s1, trace) →
      trace = []
        ∧ s1.base.isolated_subscribers = dinsert i d cs.base.isolated_subscribers) := by
  refine ⟨?_, ?_, ?_⟩
  · intro fuel cls cs anc args target kwargs
    rfl
  · intro fuel cls cs anc i d s1 trace hg hc hu1 hu2 h5 h6 h7 hupd
    obtain ⟨htrace, hsubs, hiso, hcache⟩ :=
      cached_replay_trace fuel cls cs anc i d s1 trace hg hc hupd
    rw [hu1] at hsubs
    rw [hu2] at hiso
    simp only [List.foldl_nil] at hsubs hiso
    have hper : ∀ inv : Invocation,
        cbFilter d.cb (Signal.invoke_signal cls inv.args inv.target inv.kwargs d
          :: Signal.invoke fuel anc inv.args inv.target inv.kwargs)
        = [Signal.invoke_signal cls inv.args inv.target inv.kwargs d] := by
      intro inv
      rw [cbFilter_cons_self
        (show (Signal.invoke_signal cls inv.args inv.target inv.kwargs d).cb = d.cb from rfl)]
      rw [cbFilter_eq_nil (fun e he hc2 => by
        obtain ⟨pr, hpr, hq⟩ := invoke_mem_cb fuel anc inv.args inv.target inv.kwargs e he
        rcases hq with ⟨q, hqm, hcb⟩ | ⟨q, hqm, hcb⟩
        · exact (h7 pr hpr).1 q hqm (hcb ▸ hc2)
        · exact (h7 pr hpr).2 q hqm (hcb ▸ hc2))]
    have hfilter : cbFilter d.cb trace
        = cs.cache.map (fun inv => Signal.invoke_signal cls inv.args inv.target inv.kwargs d) := by
      rw [htrace, cbFilter_flatMap]
      simp only [hper]
      exact flatMap_singleton_map _ _
    refine ⟨hfilter, ?_⟩
    intro args2 target2 kwargs2
    rw [cbFilter_append, hfilter]
    congr 1
    rw [show (CachedSignal.invoke fuel cls s1 anc none args2 target2 kwargs2).2
        = ((match target2 with
            | some t => Signal.invoke_targets cls s1.base.isolated_subscribers s1.base.children
                args2 target2 kwargs2 fuel t
            | none => []) ++ Signal.invoke_general cls s1.base.subscribers args2 target2 kwargs2)
          ++ Signal.invoke fuel anc args2 target2 kwargs2 from rfl]
    rw [cbFilter_append, cbFilter_append]
    have htgt : cbFilter d.cb ((match target2 with
        | some t => Signal.invoke_targets cls s1.base.isolated_subscribers s1.base.children
            args2 target2 kwargs2 fuel t
        | none => []) : List Event) = [] := by
      cases target2 with
      | none => rfl
      | some t =>
        apply cbFilter_eq_nil
        intro e he hc2
        obtain ⟨q, hqm, hcb⟩ := invoke_targets_mem_cb cls s1.base.isolated_subscribers
          s1.base.children args2 (some t) kwargs2 fuel t e he
        rw [hiso] at hqm
        exact h6 q hqm (hcb ▸ hc2)
    have hgen : cbFilter d.cb
        (Signal.invoke_general cls s1.base.subscribers args2 target2 kwargs2)
        = [Signal.invoke_signal cls args2 target2 kwargs2 d] := by
      rw [hsubs]
      exact cbFilter_general_dinsert cls args2 target2 kwargs2 i d cs.base.subscribers h5
    have hch2 : cbFilter d.cb (Signal.invoke fuel anc args2 target2 kwargs2) = [] := by
      apply cbFilter_eq_nil
      intro e he hc2
      obtain ⟨pr, hpr, hq⟩ := invoke_mem_cb fuel anc args2 target2 kwargs2 e he
      rcases hq with ⟨q, hqm, hcb⟩ | ⟨q, hqm, hcb⟩
      · exact (h7 pr hpr).1 q hqm (hcb ▸ hc2)
      · exact (h7 pr hpr).2 q hqm (hcb ▸ hc2)
    rw [htgt, hgen, hch2]
    simp
  · intro fuel cls cs anc i d s1 trace hg hcx hu2 hupd
    obtain ⟨hhook, hcache⟩ := cached_update_state_inv fuel cls cs anc s1 trace hupd
    obtain ⟨hf1, hf2, hf3⟩ := update_state_hook_fields _ _ _ _ hhook
    rw [hg] at hf3
    rw [hcx] at hf2 hf3
    rw [hu2] at hf2
    simp only [List.reverse_nil, List.reverse_cons, List.nil_append, Signal.subsApplyLoop,
      List.foldl_nil, List.append_nil] at hf2 hf3
    constructor
    · rw [hf3]
      simp [CachedSignal.on_subscribed]
    · exact hf2

theorem c3_cached_replay_witness :
    cbFilter dMain.cb traceFix
        = csFix.cache.map (fun inv => Signal.invoke_signal 3 inv.args inv.target inv.kwargs dMain)
    ∧ (([] : List Event) = []
        ∧ s1CtxFix.base.isolated_subscribers
            = dinsert 4 dMain csFixCtx.base.isolated_subscribers) :=
  ⟨(c3_cached_replay.2.1 1 3 csFix ancFix 4 dMain s1Fix traceFix rfl rfl rfl rfl
      (by decide) (by decide) (by decide) (by decide)).1,
   c3_cached_replay.2.2 1 3 csFixCtx ancFix 4 dMain s1CtxFix [] rfl rfl rfl (by decide)⟩

/-- C10: during cache replay to a newly applied global subscriber, each cached
invocation is escalated through `invoke_parent` along the ancestor chain, so
every live global subscriber of every ancestor class receives every cached
invocation again — replay is not delivered exclusively to the new
subscriber. -/
theorem c10_replay_escalates_to_ancestors (fuel cls : Nat) (cs : CachedState)
    (anc : List (Nat × SigState)) (i : Nat) (d : SubData) (s1 : CachedState)
    (trace : List Event)
    (hg : cs.base.to_subscribe_global = [(i, d)])
    (hc : cs.base.to_subscribe_context = [])
    (hupd : CachedSignal.update_state fuel cls cs anc = some (s1, trace)) :
    trace = cs.cache.flatMap (fun inv =>
        Signal.invoke_signal cls inv.args inv.target inv.kwargs d
          :: Signal.invoke fuel anc inv.args inv.target inv.kwargs)
    ∧ ∀ pr ∈ anc, ∀ q ∈ pr.2.subscribers, ∀ inv ∈ cs.cache,
        Signal.invoke_signal pr.1 inv.args inv.target inv.kwargs q.2 ∈ trace := by
  obtain ⟨htrace, _, _, _⟩ := cached_replay_trace fuel cls cs anc i d s1 trace hg hc hupd
  refine ⟨htrace, ?_⟩
  intro pr hpr q hq inv hinv
  rw [htrace]
  apply List.mem_flatMap.mpr
  refine ⟨inv, hinv, ?_⟩
  apply List.mem_cons_of_mem
  obtain ⟨cid, st⟩ := pr
  exact invoke_mem_of_chain fuel anc inv.args inv.target inv.kwargs hpr hq

theorem c10_replay_escalates_to_ancestors_witness :
    traceFix = csFix.cache.flatMap (fun inv =>
        Signal.invoke_signal 3 inv.args inv.target inv.kwargs dMain
          :: Signal.invoke 1 ancFix inv.args inv.target inv.kwargs)
    ∧ Signal.invoke_signal 8 invA.args invA.target invA.kwargs dAnc ∈ traceFix := by
  have h := c10_replay_escalates_to_ancestors 1 3 csFix ancFix 4 dMain s1Fix traceFix
    rfl rfl (by decide)
  refine ⟨h.1, ?_⟩
  have h2 := h.2 (8, { emptySig with subscribers := [(21, dAnc)] }) (by decide)
    (21, dAnc) (by decide) invA (by decide)
  exact h2

/-! ## C1 — deferred mutation freezes dispatch -/

theorem dlookup_map_value (f : Nat → α → β) (m : List (Nat × α)) (c : Nat) :
    dlookup c (m.map (fun p => (p.1, f p.1 p.2))) = (dlookup c m).map (f c) := by
  induction m with
  | nil => rfl
  | cons hd tl ih =>
    obtain ⟨a, s⟩ := hd
    by_cases hac : a = c
    · subst hac
      simp [dlookup]
    · simp [dlookup, hac, ih]

theorem dlookup_applyStageAt (cid : Nat) (op : Signal.StageOp) (m : Classes) (c : Nat) :
    dlookup c (Signal.applyStageAt cid op m)
      = (dlookup c m).map (fun s => if c = cid then Signal.applyStage op s else s) := by
  have hfun : Signal.applyStageAt cid op m
      = m.map (fun p => (p.1, if p.1 = cid then Signal.applyStage op p.2 else p.2)) := by
    unfold Signal.applyStageAt
    have heq : (fun (p : Nat × SigState) => if p.1 = cid then (p.1, Signal.applyStage op p.2) else p)
        = fun p => (p.1, if p.1 = cid then Signal.applyStage op p.2 else p.2) := by
      funext p
      by_cases hp : p.1 = cid <;> simp [hp]
    rw [heq]
  rw [hfun, dlookup_map_value (fun k s => if k = cid then Signal.applyStage op s else s) m c]

theorem getCls_applyStageAt_live (cid : Nat) (op : Signal.StageOp) (m : Classes) (c : Nat) :
    liveEq (getCls c (Signal.applyStageAt cid op m)) (getCls c m) := by
  unfold getCls
  rw [dlookup_applyStageAt]
  cases dlookup c m with
  | none => exact liveEq_refl _
  | some s =>
    simp only [Option.map_some', Option.getD_some]
    by_cases hc : c = cid
    · simp only [if_pos hc]
      exact stage_live op s
    · simp only [if_neg hc]
      exact liveEq_refl s

theorem applyCbOps_live (env : CbEnv) (cb : Nat) (m : Classes) :
    LiveEqC (Signal.applyCbOps env cb m) m := by
  unfold Signal.applyCbOps
  refine foldl_preserve _ (fun t => LiveEqC t m) ?_ (env cb) m (fun c => liveEq_refl _)
  intro t pr ht c
  exact liveEq_trans (getCls_applyStageAt_live pr.1 pr.2 t c) (ht c)

theorem foldl_pair_acc (F : β → Nat → β × List Event) :
    ∀ (l : List Nat) (p : β) (a : List Event),
      l.foldl (fun acc c => ((F acc.1 c).1, acc.2 ++ (F acc.1 c).2)) (p, a)
        = ((l.foldl (fun acc c => ((F acc.1 c).1, acc.2 ++ (F acc.1 c).2)) (p, [])).1,
           a ++ (l.foldl (fun acc c => ((F acc.1 c).1, acc.2 ++ (F acc.1 c).2)) (p, [])).2) := by
  intro l
  induction l with
  | nil => intro p a; simp
  | cons hd tl ih =>
    intro p a
    simp only [List.foldl_cons]
    rw [ih ((F p hd).1) (a ++ (F p hd).2), ih ((F p hd).1) ([] ++ (F p hd).2)]
    simp [List.append_assoc]

theorem invoke_targets_eff_spec (env : CbEnv) (cls : Nat) (args : List Nat)
    (target : Option Nat) (kwargs : List (Nat × Nat)) :
    ∀ (fuel : Nat) (m m0 : Classes) (addr : Nat), LiveEqC m m0 →
      (Signal.invoke_targets_eff env cls args target kwargs fuel m addr).2
        = Signal.invoke_targets cls (getCls cls m0).isolated_subscribers
            (getCls cls m0).children args target kwargs fuel addr
      ∧ LiveEqC (Signal.invoke_targets_eff env cls args target kwargs fuel m addr).1 m0 := by
  intro fuel
  induction fuel with
  | zero =>
    intro m m0 addr h
    exact ⟨rfl, h⟩
  | succ f ih =>
    intro m m0 addr h
    have hfold : ∀ (cl : List Nat) (m1 : Classes), LiveEqC m1 m0 →
        ((cl.foldl (fun acc c =>
            let r := Signal.invoke_targets_eff env cls args target kwargs f acc.1 c
            (r.1, acc.2 ++ r.2)) (m1, ([] : List Event))).2
          = cl.flatMap (fun c => Signal.invoke_targets cls
              (getCls cls m0).isolated_subscribers (getCls cls m0).children
              args target kwargs f c))
        ∧ LiveEqC ((cl.foldl (fun acc c =>
            let r := Signal.invoke_targets_eff env cls args target kwargs f acc.1 c
            (r.1, acc.2 ++ r.2)) (m1, ([] : List Event))).1) m0 := by
      intro cl
      induction cl with
      | nil => intro m1 h1; exact ⟨rfl, h1⟩
      | cons c rest ihc =>
        intro m1 h1
        obtain ⟨he1, he2⟩ := ih m1 m0 c h1
        simp only [List.foldl_cons]
        rw [foldl_pair_acc (fun mm cc => Signal.invoke_targets_eff env cls args target kwargs f mm cc)]
        obtain ⟨hr1, hr2⟩ :=
          ihc (Signal.invoke_targets_eff env cls args target kwargs f m1 c).1 he2
        constructor
        · dsimp only
          rw [hr1, he1]
          simp
        · dsimp only
          exact hr2
    cases hd : dlookup addr (getCls cls m).isolated_subscribers with
    | none =>
      have hpure : Signal.invoke_targets cls (getCls cls m0).isolated_subscribers
          (getCls cls m0).children args target kwargs (f + 1) addr
          = (match dlookup addr (getCls cls m).children with
             | some cs => cs.flatMap (fun c => Signal.invoke_targets cls
                 (getCls cls m0).isolated_subscribers (getCls cls m0).children
                 args target kwargs f c)
             | none => []) := by
        rw [invoke_targets_succ, ← (h cls).2.1, ← (h cls).2.2, hd]
        simp
      cases hc : dlookup addr (getCls cls m).children with
      | none =>
        have heff : Signal.invoke_targets_eff env cls args target kwargs (f + 1) m addr
            = (m, []) := by
          simp [Signal.invoke_targets_eff, hd, hc]
        rw [heff, hpure, hc]
        exact ⟨rfl, h⟩
      | some cs =>
        have heff1 : (Signal.invoke_targets_eff env cls args target kwargs (f + 1) m addr).1
            = ((cs.foldl (fun acc c =>
                let r := Signal.invoke_targets_eff env cls args target kwargs f acc.1 c
                (r.1, acc.2 ++ r.2)) (m, ([] : List Event))).1) := by
          simp [Signal.invoke_targets_eff, hd, hc]
        have heff2 : (Signal.invoke_targets_eff env cls args target kwargs (f + 1) m addr).2
            = ((cs.foldl (fun acc c =>
                let r := Signal.invoke_targets_eff env cls args target kwargs f acc.1 c
                (r.1, acc.2 ++ r.2)) (m, ([] : List Event))).2) := by
          simp [Signal.invoke_targets_eff, hd, hc]
        obtain ⟨hr1, hr2⟩ := hfold cs m h
        rw [heff1, heff2, hpure, hc]
        exact ⟨hr1, hr2⟩
    | some dd =>
      have hm1 : LiveEqC (Signal.applyCbOps env dd.cb m) m0 :=
        fun c => liveEq_trans (applyCbOps_live env dd.cb m c) (h c)
      have hpure : Signal.invoke_targets cls (getCls cls m0).isolated_subscribers
          (getCls cls m0).children args target kwargs (f + 1) addr
          = [Signal.invoke_signal cls args target kwargs dd]
            ++ (match dlookup addr (getCls cls (Signal.applyCbOps env dd.cb m)).children with
               | some cs => cs.flatMap (fun c => Signal.invoke_targets cls
                   (getCls cls m0).isolated_subscribers (getCls cls m0).children
                   args target kwargs f c)
               | none => []) := by
        rw [invoke_targets_succ, ← (h cls).2.1, ← (hm1 cls).2.2, hd]
      cases hc : dlookup addr (getCls cls (Signal.applyCbOps env dd.cb m)).children with
      | none =>
        have heff : Signal.invoke_targets_eff env cls args target kwargs (f + 1) m addr
            = (Signal.applyCbOps env dd.cb m,
               [Signal.invoke_signal cls args target kwargs dd]) := by
          simp [Signal.invoke_targets_eff, hd, hc]
        rw [heff, hpure, hc]
        exact ⟨by simp, hm1⟩
      | some cs =>
        have heff1 : (Signal.invoke_targets_eff env cls args target kwargs (f + 1) m addr).1
            = ((cs.foldl (fun acc c =>
                let r := Signal.invoke_targets_eff env cls args target kwargs f acc.1 c
                (r.1, acc.2 ++ r.2)) (Signal.applyCbOps env dd.cb m, ([] : List Event))).1) := by
          simp [Signal.invoke_targets_eff, hd, hc]
        have heff2 : (Signal.invoke_targets_eff env cls args target kwargs (f + 1) m addr).2
            = [Signal.invoke_signal cls args target kwargs dd]
              ++ ((cs.foldl (fun acc c =>
                  let r := Signal.invoke_targets_eff env cls args target kwargs f acc.1 c
                  (r.1, acc.2 ++ r.2)) (Signal.applyCbOps env dd.cb m, ([] : List Event))).2) := by
          simp [Signal.invoke_targets_eff, hd, hc]
        obtain ⟨hr1, hr2⟩ := hfold cs (Signal.applyCbOps env dd.cb m) hm1
        rw [heff1, heff2, hpure, hc]
        exact ⟨by rw [hr1], hr2⟩

theorem invoke_general_eff_spec (env : CbEnv) (cls : Nat) (args : List Nat)
    (target : Option Nat) (kwargs : List (Nat × Nat)) :
    ∀ (l : List (Nat × SubData)) (m m0 : Classes), LiveEqC m m0 →
      (Signal.invoke_general_eff env cls args target kwargs m l).2
        = Signal.invoke_general cls l args target kwargs
      ∧ LiveEqC (Signal.invoke_general_eff env cls args target kwargs m l).1 m0 := by
  intro l
  induction l with
  | nil => intro m m0 h; exact ⟨rfl, h⟩
  | cons kv rest ih =>
    intro m m0 h
    obtain ⟨h1, h2⟩ := ih (Signal.applyCbOps env kv.2.cb m) m0
      (fun c => liveEq_trans (applyCbOps_live env kv.2.cb m c) (h c))
    refine ⟨?_, h2⟩
    show (Signal.invoke_signal cls args target kwargs kv.2
        :: (Signal.invoke_general_eff env cls args target kwargs
            (Signal.applyCbOps env kv.2.cb m) rest).2)
      = Signal.invoke_general cls (kv :: rest) args target kwargs
    rw [h1]
    rfl

theorem class_invoke_eff_spec (env : CbEnv) (fuel cls : Nat) (m m0 : Classes)
    (args : List Nat) (target : Option Nat) (kwargs : List (Nat × Nat)) (h : LiveEqC m m0) :
    (Signal.class_invoke_eff env fuel cls m args target kwargs).2
      = Signal.class_invoke fuel cls (getCls cls m0) args target kwargs
    ∧ LiveEqC (Signal.class_invoke_eff env fuel cls m args target kwargs).1 m0 := by
  unfold Signal.class_invoke_eff Signal.class_invoke
  cases target with
  | none =>
    obtain ⟨h1, h2⟩ := invoke_general_eff_spec env cls args none kwargs
      (getCls cls m).subscribers m m0 h
    constructor
    · dsimp only
      rw [h1, (h cls).1]
    · exact h2
  | some t =>
    obtain ⟨ht1, ht2⟩ := invoke_targets_eff_spec env cls args (some t) kwargs fuel m m0 t h
    obtain ⟨hg1, hg2⟩ := invoke_general_eff_spec env cls args (some t) kwargs
      (getCls cls (Signal.invoke_targets_eff env cls args (some t) kwargs fuel m t).1).subscribers
      (Signal.invoke_targets_eff env cls args (some t) kwargs fuel m t).1 m0 ht2
    constructor
    · dsimp only
      rw [ht1, hg1, (ht2 cls).1]
    · exact hg2

theorem invoke_eff_spec (env : CbEnv) (fuel : Nat) :
    ∀ (cids : List Nat) (m m0 : Classes) (args : List Nat) (target : Option Nat)
      (kwargs : List (Nat × Nat)), LiveEqC m m0 →
      (Signal.invoke_eff env fuel m cids args target kwargs).2
        = Signal.invoke fuel (cids.map (fun c => (c, getCls c m0))) args target kwargs
      ∧ LiveEqC (Signal.invoke_eff env fuel m cids args target kwargs).1 m0 := by
  intro cids
  induction cids with
  | nil => intro m m0 args target kwargs h; exact ⟨rfl, h⟩
  | cons cid rest ih =>
    intro m m0 args target kwargs h
    obtain ⟨h1, h2⟩ := class_invoke_eff_spec env fuel cid m m0 args target kwargs h
    obtain ⟨h3, h4⟩ := ih (Signal.class_invoke_eff env fuel cid m args target kwargs).1 m0
      args target kwargs h2
    refine ⟨?_, h4⟩
    show ((Signal.class_invoke_eff env fuel cid m args target kwargs).2
        ++ (Signal.invoke_eff env fuel
            (Signal.class_invoke_eff env fuel cid m args target kwargs).1 rest
            args target kwargs).2)
      = Signal.invoke fuel ((cid, getCls cid m0) :: rest.map (fun c => (c, getCls c m0)))
          args target kwargs
    rw [h1, h3]
    rfl

/-- C1: the mutating operations `subscribe` / `unsubscribe` / `set_parent` /
`remove_parent` leave the live registry (`subscribers`,
`isolated_subscribers`, `children`) of every Signal class unchanged — they
only stage entries in the pending queues; consequently an `invoke` call whose
callbacks themselves run any such operations produces exactly the trace of
the pure dispatch over the registry as produced by the most recent
`update_state`, and leaves every class's live registry as it found it. -/
theorem c1_staged_mutations_freeze_dispatch :
    (∀ (op : Signal.StageOp) (s : SigState), liveEq (Signal.applyStage op s) s)
    ∧ (∀ (env : CbEnv) (fuel : Nat) (m : Classes) (cids : List Nat) (args : List Nat)
        (target : Option Nat) (kwargs : List (Nat × Nat)),
      (Signal.invoke_eff env fuel m cids args target kwargs).2
        = Signal.invoke fuel (cids.map (fun c => (c, getCls c m))) args target kwargs
      ∧ ∀ c, liveEq (getCls c (Signal.invoke_eff env fuel m cids args target kwargs).1)
          (getCls c m)) := by
  constructor
  · exact stage_live
  · intro env fuel m cids args target kwargs
    exact invoke_eff_spec env fuel cids m m args target kwargs (fun c => liveEq_refl _)

end PyAuthServer
